import Mathlib

/-!
Verification development for the Abo-Manager transaction-import core.

This file shallowly embeds the transaction-normalization and
recurring-pattern-detection engine of the repository:

* `src/client/src/lib/importer.ts` (main variant): `normalizeMerchant`,
  `detectInterval`, `areAmountsConsistent`, `analyzeImportedTransactions`,
  `parseCSVRow`;
* `src/unnamed/part_001` (German-format PDF parser): `normalizeDate`,
  `extractTransactionsFromPDFText`, `isScannedPDF`;
* `src/unnamed/part_002`: the pure tail of the `parse-pdf` route handler;
* `src/unnamed/part_013`: the static `PROVIDERS` catalog.

Modelling conventions:

* JavaScript numbers are modelled as `Option ℚ` (`JQ`): `none` stands for
  NaN.  All arithmetic reachable in the embedded code is either finite
  rational arithmetic or a `0/0` division, so division is modelled as
  returning `none` when the denominator is zero (the `x/0 = ±Infinity`
  case of JavaScript is unreachable in the embedded code paths: every
  division's numerator is forced to 0 whenever its denominator is 0).
  Comparisons involving `none` are `false`, as for NaN in JavaScript.
  Floating-point rounding error is abstracted away: literals such as
  `0.4` are modelled as exact rationals.
* Strings are modelled as `List Char` and `Math.sqrt` is a function
  parameter `s : ℚ → ℚ` of the detector (theorems assume of it only what
  they need, e.g. `s 0 = 0`; witnesses instantiate it with `Rat.sqrt`).
* `new Date("YYYY-MM-DD")` parsing is modelled for ISO `YYYY-MM-DD`
  strings (the format the pipeline itself produces); any other string is
  modelled as an invalid date (`none`), and day arithmetic uses exact
  civil-calendar conversion (the code divides millisecond differences of
  UTC midnights by 86400000, which yields exact whole days).
-/

/-- A JavaScript number: `none` models NaN (and the unreachable
non-finite results), `some q` a finite value. -/
abbrev JQ : Type := Option ℚ

/-- JavaScript addition: NaN-propagating. -/
def jadd (a b : JQ) : JQ := match a, b with
  | some x, some y => some (x + y)
  | _, _ => none

/-- JavaScript subtraction: NaN-propagating. -/
def jsub (a b : JQ) : JQ := match a, b with
  | some x, some y => some (x - y)
  | _, _ => none

/-- JavaScript multiplication: NaN-propagating. -/
def jmul (a b : JQ) : JQ := match a, b with
  | some x, some y => some (x * y)
  | _, _ => none

/-- JavaScript division; a zero denominator yields `none`.  In the
embedded code every division by zero has a zero numerator (`0/0`, which
is NaN in JavaScript), so this is faithful on all reachable inputs. -/
def jdiv (a b : JQ) : JQ := match a, b with
  | some x, some y => if y = 0 then none else some (x / y)
  | _, _ => none

/-- JavaScript `<`: any comparison with NaN is false. -/
def jlt (a b : JQ) : Bool := match a, b with
  | some x, some y => decide (x < y)
  | _, _ => false

/-- JavaScript `<=`: any comparison with NaN is false. -/
def jle (a b : JQ) : Bool := match a, b with
  | some x, some y => decide (x ≤ y)
  | _, _ => false

/-- JavaScript `Math.max` (binary): NaN-propagating. -/
def jmax (a b : JQ) : JQ := match a, b with
  | some x, some y => some (max x y)
  | _, _ => none

/-- JavaScript `Math.round`: half-up rounding (ties toward `+∞`),
`Math.round x = ⌊x + 1/2⌋`; NaN-propagating.  The result is always an
integer rational. -/
def jround (a : JQ) : JQ := a.map (fun x => ((⌊x + 1/2⌋ : ℤ) : ℚ))

/-- Sum of a list of rationals. -/
def listSum (l : List ℚ) : ℚ := l.foldr (· + ·) 0

/-- JavaScript `Math.max(...list)` over a nonempty rational list,
implemented as a fold from the head. -/
def listMax : List ℚ → ℚ
  | [] => 0
  | x :: xs => xs.foldl max x

/-- JavaScript `Math.min(...list)` over a nonempty rational list. -/
def listMin : List ℚ → ℚ
  | [] => 0
  | x :: xs => xs.foldl min x

/-- Strings are modelled as lists of characters. -/
abbrev Str : Type := List Char

/-- ASCII decimal digit test, as the regex class `\d`. -/
def isDigitC (c : Char) : Bool := decide ('0' ≤ c) && decide (c ≤ '9')

/-- Regex word character (`\w`): ASCII letters, digits, underscore. -/
def isWordC (c : Char) : Bool :=
  isDigitC c || (decide ('a' ≤ c) && decide (c ≤ 'z'))
    || (decide ('A' ≤ c) && decide (c ≤ 'Z')) || decide (c = '_')

/-- JavaScript whitespace (the characters relevant to this code base),
as the regex class `\s` and `String.prototype.trim`. -/
def isWsC (c : Char) : Bool :=
  decide (c = ' ') || decide (c = '\t') || decide (c = '\n') || decide (c = '\r') ||
    decide (c = '\x0b') || decide (c = '\x0c')

/-- Lower-case a character as `String.prototype.toLowerCase` does on the
alphabets appearing in this code base (ASCII plus German umlauts). -/
def lowerC (c : Char) : Char :=
  if 'A' ≤ c ∧ c ≤ 'Z' then Char.ofNat (c.toNat + 32)
  else if c = 'Ä' then 'ä' else if c = 'Ö' then 'ö' else if c = 'Ü' then 'ü'
  else c

/-- JavaScript `toLowerCase` on a string. -/
def lowerS (s : Str) : Str := s.map lowerC

/-- Case-insensitive character comparison (for regex `i` flags). -/
def eqCI (a b : Char) : Bool := decide (lowerC a = lowerC b)

/-- JavaScript `String.prototype.trim`. -/
def trimS (s : Str) : Str := (s.dropWhile (isWsC ·)).reverse.dropWhile (isWsC ·) |>.reverse

/-- JavaScript `String.prototype.includes` (substring containment). -/
def includesS (needle : Str) : Str → Bool
  | [] => needle.isEmpty
  | c :: rest => needle.isPrefixOf (c :: rest) || includesS needle rest

/-- Numeric value of a digit string (the digits of `parseInt`). -/
def digitsVal (s : Str) : ℕ := s.foldl (fun acc c => 10 * acc + (c.toNat - '0'.toNat)) 0

/-- Decimal digit expansion of a natural number (auxiliary, with fuel
bounded by the number itself). -/
def natDigitsAux : ℕ → ℕ → Str
  | 0, _ => []
  | _ + 1, 0 => []
  | fuel + 1, n => natDigitsAux fuel (n / 10) ++ [Char.ofNat ('0'.toNat + n % 10)]

/-- Decimal string of a natural number, as JavaScript number-to-string
for integers. -/
def natToStr (n : ℕ) : Str := if n = 0 then ['0'] else natDigitsAux n n

/-- JavaScript `String.prototype.padStart(2, '0')`. -/
def padStart2 (s : Str) : Str := if s.length ≥ 2 then s else '0' :: s

/-- Number of days in a month of the proleptic Gregorian calendar. -/
def daysInMonth (y m : ℤ) : ℕ :=
  if m = 1 ∨ m = 3 ∨ m = 5 ∨ m = 7 ∨ m = 8 ∨ m = 10 ∨ m = 12 then 31
  else if m = 4 ∨ m = 6 ∨ m = 9 ∨ m = 11 then 30
  else if y % 4 = 0 ∧ (y % 100 ≠ 0 ∨ y % 400 = 0) then 29
  else 28

/-- Days since the Unix epoch of a civil date (proleptic Gregorian),
matching the UTC timestamp `new Date("YYYY-MM-DD")` divided by 86400000. -/
def daysFromCivil (y m d : ℤ) : ℤ :=
  let y2 : ℤ := if m ≤ 2 then y - 1 else y
  let era : ℤ := (if y2 ≥ 0 then y2 else y2 - 399) / 400
  let yoe : ℤ := y2 - era * 400
  let mp : ℤ := if m > 2 then m - 3 else m + 9
  let doy : ℤ := (153 * mp + 2) / 5 + d - 1
  let doe : ℤ := yoe * 365 + yoe / 4 - yoe / 100 + doy
  era * 146097 + doe - 719468

/-- Civil date (year, month, day) of a days-since-epoch count (inverse
of `daysFromCivil`). -/
def civilFromDays (z0 : ℤ) : ℤ × ℤ × ℤ :=
  let z : ℤ := z0 + 719468
  let era : ℤ := (if z ≥ 0 then z else z - 146096) / 146097
  let doe : ℤ := z - era * 146097
  let yoe : ℤ := (doe - doe / 1460 + doe / 36524 - doe / 146096) / 365
  let y : ℤ := yoe + era * 400
  let doy : ℤ := doe - (365 * yoe + yoe / 4 - yoe / 100)
  let mp : ℤ := (5 * doy + 2) / 153
  let d : ℤ := doy - (153 * mp + 2) / 5 + 1
  let m : ℤ := if mp < 10 then mp + 3 else mp - 9
  (if m ≤ 2 then y + 1 else y, m, d)

/-- Parse an ISO `YYYY-MM-DD` string into days since the epoch, as
`new Date(s).getTime() / 86400000` for the date-only ISO format; any
other shape, or an out-of-range calendar component, is an invalid date
(`none`, i.e. a NaN timestamp). -/
def jsDateDays (s : Str) : Option ℤ :=
  match s with
  | [y1, y2, y3, y4, '-', m1, m2, '-', d1, d2] =>
    if isDigitC y1 && isDigitC y2 && isDigitC y3 && isDigitC y4 &&
       isDigitC m1 && isDigitC m2 && isDigitC d1 && isDigitC d2 then
      let y : ℤ := (digitsVal [y1, y2, y3, y4] : ℤ)
      let m : ℤ := (digitsVal [m1, m2] : ℤ)
      let d : ℤ := (digitsVal [d1, d2] : ℤ)
      if 1 ≤ m ∧ m ≤ 12 ∧ 1 ≤ d ∧ d ≤ (daysInMonth y m : ℤ) then
        some (daysFromCivil y m d)
      else none
    else none
  | _ => none

/-- Format a days-since-epoch count back to `YYYY-MM-DD`, as
`date.toISOString().split('T')[0]` for dates with four-digit years. -/
def isoOfDays (z : ℤ) : Str :=
  let c := civilFromDays z
  padStart2 (padStart2 (natToStr c.1.toNat)) ++ ['-'] ++
    padStart2 (natToStr c.2.1.toNat) ++ ['-'] ++ padStart2 (natToStr c.2.2.toNat)

/-- Absolute day distance between two date strings, as `daysBetween` in
`importer.ts` (`Math.abs((d2 - d1) / 86400000)`); NaN when either date
fails to parse. -/
def daysBetween (a b : Str) : JQ :=
  match jsDateDays a, jsDateDays b with
  | some x, some y => some |((y - x : ℤ) : ℚ)|
  | _, _ => none

/-- Sign of a `parseFloat` input after whitespace skipping. -/
def jsFloatSign : Str → ℚ
  | '-' :: _ => -1
  | _ => 1

/-- Drop a leading sign character, the second step of `parseFloat`. -/
def jsAfterSign : Str → Str
  | '-' :: r => r
  | '+' :: r => r
  | s => s

/-- JavaScript `parseFloat`: skip leading whitespace, optional sign,
digits, optional `.` and fraction digits; NaN (`none`) when no digit is
read.  Exponents and the `Infinity` literal are not modelled: no string
reaching `parseFloat` in the embedded code can contain a valid exponent
(the only letters that can follow a number come from currency codes,
which abort the numeric prefix). -/
def jsParseFloat (s : Str) : Option ℚ :=
  let s1 := s.dropWhile (isWsC ·)
  let sgn : ℚ := jsFloatSign s1
  let s2 : Str := jsAfterSign s1
  let intPart := s2.takeWhile (isDigitC ·)
  let s3 := s2.drop intPart.length
  let fracPart : Str := match s3 with
    | '.' :: r => r.takeWhile (isDigitC ·)
    | _ => []
  if intPart = [] ∧ fracPart = [] then none
  else some (sgn * ((digitsVal intPart : ℚ) + (digitsVal fracPart : ℚ) / 10 ^ fracPart.length))

/-- Results of matching a regex piece at the start of a string: the list
of `(consumed, rest)` splits in backtracking-preference order (greedy
alternatives first, as in JavaScript regexes). -/
abbrev Parses : Type := List (Str × Str)

/-- Match the empty regex. -/
def pEmpty : Str → Parses := fun s => [([], s)]

/-- Match one character of a class. -/
def pChar (p : Char → Bool) : Str → Parses
  | [] => []
  | c :: rest => if p c then [([c], rest)] else []

/-- Sequence two regex pieces (preserving preference order). -/
def pSeq (a b : Str → Parses) : Str → Parses :=
  fun s => (a s).flatMap (fun pr => (b pr.2).map (fun qr => (pr.1 ++ qr.1, qr.2)))

/-- Ordered alternation, as `x|y` in a JavaScript regex. -/
def pAlt (a b : Str → Parses) : Str → Parses := fun s => a s ++ b s

/-- Case-insensitive literal (for patterns with the `i` flag; the
consumed text keeps the input's own characters). -/
def pLitCI : Str → Str → Parses
  | [], s => [([], s)]
  | _ :: _, [] => []
  | l :: ls, c :: cs =>
    if eqCI l c then (pLitCI ls cs).map (fun pr => (c :: pr.1, pr.2)) else []

/-- Exactly `n` repetitions. -/
def pCount (a : Str → Parses) : ℕ → Str → Parses
  | 0 => pEmpty
  | n + 1 => pSeq a (pCount a n)

/-- Greedy bounded repetition `{lo,hi}`: larger counts are preferred. -/
def pRep (a : Str → Parses) (lo hi : ℕ) : Str → Parses :=
  fun s => ((List.range (hi + 1 - lo)).map (fun i => hi - i)).flatMap (fun k => pCount a k s)

/-- Greedy unbounded repetition `*` with explicit fuel (in this
development the repeated piece always consumes at least one character,
so fuel equal to the string length is exhaustive). -/
def pStar (a : Str → Parses) : ℕ → Str → Parses
  | 0, s => [([], s)]
  | fuel + 1, s =>
    ((a s).flatMap (fun pr => (pStar a fuel pr.2).map (fun qr => (pr.1 ++ qr.1, qr.2))))
      ++ [([], s)]

/-- Greedy `+` (one or more) with fuel. -/
def pPlus (a : Str → Parses) (fuel : ℕ) : Str → Parses := pSeq a (pStar a fuel)

/-- The regex class `\d`. -/
def pDigit : Str → Parses := pChar (isDigitC ·)

/-- `\d{lo,hi}`. -/
def pDigits (lo hi : ℕ) : Str → Parses := pRep pDigit lo hi

/-- The date-separator class: dot, slash or dash. -/
def pSep : Str → Parses := pChar (fun c => decide (c = '.') || decide (c = '/') || decide (c = '-'))

/-- The class `[.\s]` used by the German long-form date pattern. -/
def pDotWs : Str → Parses := pChar (fun c => decide (c = '.') || isWsC c)

/-- The class `\s`. -/
def pWs : Str → Parses := pChar (isWsC ·)

/-- The class `[.,]`. -/
def pDotComma : Str → Parses := pChar (fun c => decide (c = '.') || decide (c = ','))

/-- Literal single character. -/
def pLit1 (c : Char) : Str → Parses := pChar (fun d => decide (d = c))

/-- A matcher in left context: takes the preceding character (if any)
and the remaining string.  Word boundaries at the pattern edges are
checked against this context. -/
abbrev CtxMatcher : Type := Option Char → Str → Parses

/-- Wrap a context-free matcher, optionally requiring a `\b` word
boundary before the match and after it.  All bounded patterns in the
source start and end with a word character (a digit or letter), so the
boundary holds exactly when the adjacent outside character is not a word
character. -/
def withBounds (needStart needEnd : Bool) (m : Str → Parses) : CtxMatcher :=
  fun prev s =>
    if needStart && (match prev with | some c => isWordC c | none => false) then []
    else (m s).filter (fun pr =>
      !needEnd || (match pr.2 with | [] => true | c :: _ => !isWordC c))

/-- A context-free matcher lifted to a `CtxMatcher` (no boundaries). -/
def noBounds (m : Str → Parses) : CtxMatcher := fun _ s => m s

/-- Leftmost regex search, as `String.prototype.match` for a non-global
regex: returns `(prefix, matched, rest)` of the first match. -/
def searchFirst (m : CtxMatcher) : Option Char → Str → Option (Str × Str × Str)
  | prev, [] =>
    match (m prev []).head? with
    | some pr => some ([], pr.1, pr.2)
    | none => none
  | prev, c :: cs =>
    match (m prev (c :: cs)).head? with
    | some pr => some ([], pr.1, pr.2)
    | none => (searchFirst m (some c) cs).map (fun t => (c :: t.1, t.2.1, t.2.2))

/-- Last character of a list, falling back to a default context. -/
def lastCharD (l : Str) (d : Option Char) : Option Char :=
  match l.getLast? with
  | some c => some c
  | none => d

/-- All matches of a pattern, left to right, as `String.prototype.match`
with the `g` flag (a list of the full matched substrings).  Every
pattern used here matches at least one character, so fuel equal to the
string length is exhaustive. -/
def allMatches (m : CtxMatcher) : ℕ → Option Char → Str → List Str
  | 0, _, _ => []
  | fuel + 1, prev, s =>
    match searchFirst m prev s with
    | none => []
    | some (pre, mat, rest) => mat :: allMatches m fuel (lastCharD (pre ++ mat) prev) rest

/-- Remove every match of a pattern, as `String.prototype.replace` with
the `g` flag and an empty replacement string. -/
def removeAll (m : CtxMatcher) : ℕ → Option Char → Str → Str
  | 0, _, s => s
  | fuel + 1, prev, s =>
    match searchFirst m prev s with
    | none => s
    | some (pre, mat, rest) => pre ++ removeAll m fuel (lastCharD (pre ++ mat) prev) rest

/-- The German month-name alternation
`Januar|Februar|März|April|Mai|Juni|Juli|August|September|Oktober|November|Dezember`
(tried in source order, case-insensitively). -/
def monthLits : List Str :=
  ["Januar".data, "Februar".data, "März".data, "April".data, "Mai".data, "Juni".data,
   "Juli".data, "August".data, "September".data, "Oktober".data, "November".data,
   "Dezember".data]

/-- Month-name to two-digit month number, as the `monthNames` record of
`normalizeDate` (keys are lower-case). -/
def monthNumber (lowered : Str) : Str :=
  match (monthLits.zip ["01", "02", "03", "04", "05", "06", "07", "08",
      "09", "10", "11", "12"]).find? (fun pr => decide (lowerS pr.1 = lowered)) with
  | some pr => pr.2.data
  | none => []

/-- Matcher for one German month name. -/
def pMonth : Str → Parses := fun s => monthLits.flatMap (fun l => pLitCI l s)

/-- Core of the German long-form date pattern
(one-or-two digits, one or more dot-or-space, month name, whitespace,
four digits), shared by the search pattern of the PDF extractor and the
first pattern of `normalizeDate`. -/
def germanDateCore (fuel : ℕ) : Str → Parses :=
  pSeq (pDigits 1 2) (pSeq (pPlus pDotWs fuel)
    (pSeq pMonth (pSeq (pPlus pWs fuel) (pCount pDigit 4))))

/-- First match of the (unbounded, case-insensitive) German date pattern
of `normalizeDate`, with its three capture groups `(day, month, year)`. -/
def germanFindAt (fuel : ℕ) (s : Str) : Option (Str × Str × Str) :=
  ((pDigits 1 2 s).flatMap (fun d =>
    (pPlus pDotWs fuel d.2).flatMap (fun sep =>
      (pMonth sep.2).flatMap (fun mo =>
        (pPlus pWs fuel mo.2).flatMap (fun ws =>
          (pCount pDigit 4 ws.2).map (fun yr => (d.1, mo.1, yr.1))))))).head?

/-- Leftmost search for `germanFindAt` (the `normalizeDate` German
pattern has no word-boundary anchors and no `g` flag). -/
def germanFind (fuel : ℕ) : Str → Option (Str × Str × Str)
  | [] => germanFindAt fuel []
  | c :: cs =>
    match germanFindAt fuel (c :: cs) with
    | some r => some r
    | none => germanFind fuel cs

/-- Anchored pattern `(\d{1,2})SEP(\d{1,2})SEP(\d{ylen})` over the whole
string (`ylen` is 4 for the DD.MM.YYYY pattern and 2 for DD.MM.YY);
returns the captures `(day, month, year)`. -/
def anchoredDMY (ylen : ℕ) (s : Str) : Option (Str × Str × Str) :=
  (((pDigits 1 2 s).flatMap fun a =>
    (pSep a.2).flatMap fun c1 =>
    (pDigits 1 2 c1.2).flatMap fun b =>
    (pSep b.2).flatMap fun c2 =>
    (pCount pDigit ylen c2.2).filterMap fun y =>
      if y.2 = [] then some (a.1, b.1, y.1) else none)).head?

/-- Anchored pattern `(\d{4})SEP(\d{1,2})SEP(\d{1,2})` over the whole
string; returns the captures `(year, month, day)`. -/
def anchoredYMD (s : Str) : Option (Str × Str × Str) :=
  (((pCount pDigit 4 s).flatMap fun y =>
    (pSep y.2).flatMap fun c1 =>
    (pDigits 1 2 c1.2).flatMap fun m =>
    (pSep m.2).flatMap fun c2 =>
    (pDigits 1 2 c2.2).filterMap fun d =>
      if d.2 = [] then some (y.1, m.1, d.1) else none)).head?

/-- The `normalizeDate` function of `src/unnamed/part_001` (the
German-aware PDF parser): German long-form dates first, then the three
anchored numeric formats; two-digit years above 50 map to `19xx`,
otherwise `20xx`; unrecognized strings are returned unchanged. -/
def normalizeDate (dateStr : Str) : Str :=
  match germanFind dateStr.length dateStr with
  | some (day, mo, yr) => yr ++ ['-'] ++ monthNumber (lowerS mo) ++ ['-'] ++ padStart2 day
  | none =>
  match anchoredDMY 4 dateStr with
  | some (d, m, y) => y ++ ['-'] ++ padStart2 m ++ ['-'] ++ padStart2 d
  | none =>
  match anchoredDMY 2 dateStr with
  | some (d, m, y) =>
    let fullYear : Str := if digitsVal y > 50 then ['1', '9'] ++ y else ['2', '0'] ++ y
    fullYear ++ ['-'] ++ padStart2 m ++ ['-'] ++ padStart2 d
  | none =>
  match anchoredYMD dateStr with
  | some (y, m, d) => y ++ ['-'] ++ padStart2 m ++ ['-'] ++ padStart2 d
  | none => dateStr

/-- The extractor's word-bounded German date search pattern. -/
def datePatternGerman (fuel : ℕ) : CtxMatcher := withBounds true true (germanDateCore fuel)

/-- The extractor's word-bounded numeric date pattern
`\b(\d{1,2})SEP(\d{1,2})SEP(\d{2,4})\b`. -/
def datePatternNumeric : CtxMatcher :=
  withBounds true true
    (pSeq (pDigits 1 2) (pSeq pSep (pSeq (pDigits 1 2) (pSeq pSep (pDigits 2 4)))))

/-- The extractor's word-bounded ISO date pattern
`\b(\d{4})SEP(\d{1,2})SEP(\d{1,2})\b`. -/
def datePatternISO : CtxMatcher :=
  withBounds true true
    (pSeq (pCount pDigit 4) (pSeq pSep (pSeq (pDigits 1 2) (pSeq pSep (pDigits 1 2)))))

/-- A grouped decimal number: 1-3 digits, any number of
thousands-separator groups of 3 digits, then the decimal separator and
exactly 2 digits. -/
def amountNum (fuel : ℕ) (thouSep decSep : Char) : Str → Parses :=
  pSeq (pDigits 1 3) (pSeq (pStar (pSeq (pLit1 thouSep) (pCount pDigit 3)) fuel)
    (pSeq (pLit1 decSep) (pCount pDigit 2)))

/-- The alternation `EUR|€` (case-insensitive). -/
def pEur : Str → Parses := pAlt (pLitCI "EUR".data) (pLitCI "€".data)

/-- The alternation `USD|$` (case-insensitive). -/
def pUsd : Str → Parses := pAlt (pLitCI "USD".data) (pLitCI "$".data)

/-- Amount pattern 1 of `part_001`: German-format number followed by
`EUR` or `€`. -/
def amountPat1 (fuel : ℕ) : CtxMatcher :=
  noBounds (pSeq (amountNum fuel '.' ',') (pSeq (pStar pWs fuel) pEur))

/-- Amount pattern 2 of `part_001`: `EUR` or `€` followed by a
German-format number. -/
def amountPat2 (fuel : ℕ) : CtxMatcher :=
  noBounds (pSeq pEur (pSeq (pStar pWs fuel) (amountNum fuel '.' ',')))

/-- Amount pattern 3 of `part_001`: US-format number followed by `USD`
or `$`. -/
def amountPat3 (fuel : ℕ) : CtxMatcher :=
  noBounds (pSeq (amountNum fuel ',' '.') (pSeq (pStar pWs fuel) pUsd))

/-- Amount pattern 4 of `part_001`: `USD` or `$` followed by a US-format
number. -/
def amountPat4 (fuel : ℕ) : CtxMatcher :=
  noBounds (pSeq pUsd (pSeq (pStar pWs fuel) (amountNum fuel ',' '.')))

/-- The description-cleanup amount pattern
`\d{1,3}(?:[.,]\d{3})*[.,]\d{2}` (no word boundaries). -/
def cleanupAmount (fuel : ℕ) : CtxMatcher :=
  noBounds (pSeq (pDigits 1 3) (pSeq (pStar (pSeq pDotComma (pCount pDigit 3)) fuel)
    (pSeq pDotComma (pCount pDigit 2))))

/-- The description-cleanup currency alternation
`EUR|€|USD|$|GBP|£|CHF` (case-insensitive, no word boundaries). -/
def currencyLit : CtxMatcher :=
  noBounds (fun s =>
    ["EUR".data, "€".data, "USD".data, "$".data, "GBP".data, "£".data, "CHF".data].flatMap
      (fun l => pLitCI l s))

/-- The word-bounded merchant-indicator alternation
`invoice|rechnung|bill|from|von` (case-insensitive). -/
def indicatorM : CtxMatcher :=
  withBounds true true (fun s =>
    ["invoice".data, "rechnung".data, "bill".data, "from".data, "von".data].flatMap
      (fun l => pLitCI l s))

/-- The word-bounded alternation `total|gesamt|summe` (case-insensitive). -/
def totalM : CtxMatcher :=
  withBounds true true (fun s =>
    ["total".data, "gesamt".data, "summe".data].flatMap (fun l => pLitCI l s))

/-- Remove every dot, as `replace` of all dots with nothing. -/
def removeDots (s : Str) : Str := s.filter (fun c => !decide (c = '.'))

/-- Replace the first comma by a dot, as a non-global
`replace(',', '.')`. -/
def replaceFirstComma : Str → Str
  | [] => []
  | c :: r => if c = ',' then '.' :: r else c :: replaceFirstComma r

/-- The raw transaction produced by the PDF line extractor
(`ExtractedTransaction` in `part_001`). -/
structure ExtractedTransaction where
  date : Str
  description : Str
  amount : ℚ
  currency : Str
  raw : Str
deriving DecidableEq, Repr

/-- Amount-string selection `match[1] || match[0]`: with a global regex,
JavaScript's `match` returns the list of full matches, so index 1 is the
second full match when it exists (all matches are nonempty strings,
hence truthy), else the first. -/
def matchSel (mats : List Str) : Str :=
  match mats.get? 1 with
  | some m => m
  | none => mats.headD []

/-- Parse the selected amount string: strip all dots, turn the first
comma into a dot, then `parseFloat`. -/
def amountOfMatches (mats : List Str) : Option ℚ :=
  jsParseFloat (replaceFirstComma (removeDots (matchSel mats)))

/-- The date found in a line, as the first-match-wins chain over the
three date patterns of the extractor (empty string when no pattern
matches, the falsy `foundDate` sentinel of the source). -/
def lineDateOf (line : Str) (fuel : ℕ) : Str :=
  match searchFirst (datePatternGerman fuel) none line with
  | some r => normalizeDate r.2.1
  | none =>
  match searchFirst datePatternNumeric none line with
  | some r => normalizeDate r.2.1
  | none =>
  match searchFirst datePatternISO none line with
  | some r => normalizeDate r.2.1
  | none => []

/-- The `foundAmount` of a line: first amount pattern with a match
wins; its amount string is `match[1] || match[0]` cleaned and parsed;
`some 0` is the initial value when no pattern matches. -/
def lineAmountOf (line : Str) (fuel : ℕ) : JQ :=
  if allMatches (amountPat1 fuel) fuel none line ≠ [] then
    amountOfMatches (allMatches (amountPat1 fuel) fuel none line)
  else if allMatches (amountPat2 fuel) fuel none line ≠ [] then
    amountOfMatches (allMatches (amountPat2 fuel) fuel none line)
  else if allMatches (amountPat3 fuel) fuel none line ≠ [] then
    amountOfMatches (allMatches (amountPat3 fuel) fuel none line)
  else if allMatches (amountPat4 fuel) fuel none line ≠ [] then
    amountOfMatches (allMatches (amountPat4 fuel) fuel none line)
  else some 0

/-- The `foundCurrency` of a line: `EUR` when no amount pattern
matched, otherwise decided by which currency markers the line
contains. -/
def lineCurrencyOf (line : Str) (fuel : ℕ) : Str :=
  if allMatches (amountPat1 fuel) fuel none line = [] ∧
      allMatches (amountPat2 fuel) fuel none line = [] ∧
      allMatches (amountPat3 fuel) fuel none line = [] ∧
      allMatches (amountPat4 fuel) fuel none line = [] then "EUR".data
  else if includesS "USD".data line || includesS "$".data line then "USD".data
  else if includesS "GBP".data line || includesS "£".data line then "GBP".data
  else if includesS "CHF".data line then "CHF".data
  else "EUR".data

/-- Processing of line `i` of the extractor's main loop: date search,
amount search with currency detection, description cleanup with
previous/next-line fallback; returns the pushed transaction, if any. -/
def extractLine (lines : List Str) (i : ℕ) : Option ExtractedTransaction :=
  let line := lines.getD i []
  let fuel := line.length + 1
  let foundDate : Str := lineDateOf line fuel
  if foundDate = [] then none else
  let foundCurrency : Str := lineCurrencyOf line fuel
  match lineAmountOf line fuel with
  | none => none
  | some q =>
  if q = 0 then none else
  let d1 := removeAll (datePatternGerman fuel) fuel none line
  let d2 := removeAll datePatternNumeric fuel none d1
  let d3 := removeAll datePatternISO fuel none d2
  let d4 := removeAll (cleanupAmount fuel) fuel none d3
  let d5 := removeAll currencyLit fuel none d4
  let desc0 := trimS d5
  let description : Str :=
    if desc0 = [] then
      let prevLine := if i > 0 then lines.getD (i - 1) [] else []
      let nextLine := lines.getD (i + 1) []
      if (searchFirst indicatorM none prevLine).isSome then
        trimS (removeAll indicatorM (prevLine.length + 1) none prevLine)
      else if (searchFirst totalM none nextLine).isSome then
        trimS prevLine
      else desc0
    else desc0
  if description.length > 2 then
    some { date := foundDate, description := description, amount := q,
           currency := foundCurrency, raw := line }
  else none

/-- The `extractTransactionsFromPDFText` function of
`src/unnamed/part_001`: split into trimmed nonempty lines, then run the
per-line extraction over the indexed lines. -/
def extractTransactionsFromPDFText (text : Str) : List ExtractedTransaction :=
  let lines := ((text.splitOn '\n').map trimS).filter (fun l => l.length > 0)
  (List.range lines.length).filterMap (extractLine lines)

/-- The `isScannedPDF` heuristic: fewer than 100 extracted characters
per page. -/
def isScannedPDF (text : Str) (numPages : ℚ) : Bool :=
  jlt (jdiv (some (text.length : ℚ)) (some numPages)) (some 100)

/-- The response shape of the `parse-pdf` route (`src/unnamed/part_002`)
after a successful text extraction. -/
structure PdfParseResponse where
  transactions : List ExtractedTransaction
  isScanned : Bool
  rawText : Str
  numPages : ℚ
deriving DecidableEq, Repr

/-- The pure tail of the `parse-pdf` route handler: if the scanned
heuristic fires, answer immediately with no transactions; only otherwise
run the line-based extractor. -/
def parsePdfFlow (text : Str) (numPages : ℚ) : PdfParseResponse :=
  if isScannedPDF text numPages then
    { transactions := [], isScanned := true, rawText := text, numPages := numPages }
  else
    { transactions := extractTransactionsFromPDFText text, isScanned := false,
      rawText := text, numPages := numPages }

/-- Provider catalog entry (`src/unnamed/part_013`), restricted to the
fields the importer reads: `id`, `name`, `category` and the presence and
truthiness of `noticePeriodInfo`. -/
structure ProviderData where
  id : Str
  name : Str
  category : Str
  noticePeriodInfo : Option Str
deriving DecidableEq, Repr

/-- The static `PROVIDERS` catalog, in source (insertion) order. -/
def PROVIDERS : List ProviderData :=
  [⟨"netflix".data, "Netflix".data, "Entertainment".data,
     some "Cancel anytime. Access continues until the end of the billing period.".data⟩,
   ⟨"spotify".data, "Spotify".data, "Entertainment".data,
     some "Cancel anytime. Reverts to Free at end of billing cycle.".data⟩,
   ⟨"amazon_prime".data, "Amazon Prime".data, "Entertainment".data,
     some "Can end immediately or at end of cycle. Partial refund possible if unused.".data⟩,
   ⟨"disney_plus".data, "Disney+".data, "Entertainment".data,
     some "Cancel anytime effective at end of billing period.".data⟩,
   ⟨"dazn".data, "DAZN".data, "Entertainment".data,
     some "30 days notice usually required for monthly flex plans.".data⟩,
   ⟨"adobe".data, "Adobe Creative Cloud".data, "Software".data,
     some "Early cancellation fee may apply for annual plans paid monthly (50% of remaining balance).".data⟩,
   ⟨"apple_icloud".data, "Apple iCloud+".data, "Software".data,
     some "Manage via Apple ID settings on device.".data⟩,
   ⟨"google_one".data, "Google One".data, "Software".data,
     some "Cancel anytime.".data⟩,
   ⟨"telekom".data, "Telekom / T-Mobile".data, "Telecommunication".data,
     some "Usually 1 month notice after initial contract period (24 months).".data⟩,
   ⟨"vodafone".data, "Vodafone".data, "Telecommunication".data,
     some "Usually 1 month notice after initial contract period.".data⟩,
   ⟨"one_and_one".data, "1&1".data, "Telecommunication".data,
     some "Often requires phone confirmation after online cancellation.".data⟩,
   ⟨"mcfit".data, "McFIT".data, "Gym".data,
     some "Usually 1 month to the end of contract period.".data⟩]

/-- The word-bounded payment-rail noise-word alternation
`paypal|payment|lastschrift|sepa|kartenzahlung` (case-insensitive). -/
def noiseWords : CtxMatcher :=
  withBounds true true (fun s =>
    ["paypal".data, "payment".data, "lastschrift".data, "sepa".data,
     "kartenzahlung".data].flatMap (fun l => pLitCI l s))

/-- Runs of four or more digits, the pattern `\d{4,}`. -/
def digitRun4 (fuel : ℕ) : CtxMatcher :=
  noBounds (pSeq (pCount pDigit 4) (pStar pDigit fuel))

/-- Maximal non-whitespace tokens of a string (the result of
`split(/\s+/)` up to empty tokens at the edges, which the caller
filters away by requiring length > 2). -/
def tokensOfAux : Str → Str → List Str
  | cur, [] => if cur = [] then [] else [cur.reverse]
  | cur, c :: rest =>
    if isWsC c then
      if cur = [] then tokensOfAux [] rest else cur.reverse :: tokensOfAux [] rest
    else tokensOfAux (c :: cur) rest

/-- Tokens of a string, split on whitespace runs. -/
def tokensOf (s : Str) : List Str := tokensOfAux [] s

/-- Join strings with single spaces, as `Array.prototype.join(' ')`. -/
def joinSpace : List Str → Str
  | [] => []
  | [w] => w
  | w :: ws => w ++ [' '] ++ joinSpace ws

/-- Upper-case an ASCII letter, as `toUpperCase` on the characters that
occur in merchant keys. -/
def upperC (c : Char) : Char :=
  if 'a' ≤ c ∧ c ≤ 'z' then Char.ofNat (c.toNat - 32) else c

/-- `key.charAt(0).toUpperCase() + key.slice(1)`. -/
def capitalizeFirst : Str → Str
  | [] => []
  | c :: r => upperC c :: r

/-- The `normalizeMerchant` function of `importer.ts`: lower-case,
strip runs of 4+ digits, strip asterisks, strip word-bounded
payment-rail noise words, trim; then snap to a catalog provider whose
lower-cased name is contained in the result, else keep the first up to
three tokens longer than 2 characters. -/
def normalizeMerchant (description : Str) : Str :=
  if description = [] then [] else
  let a := lowerS description
  let fuel := a.length + 1
  let b := removeAll (digitRun4 fuel) fuel none a
  let c := b.filter (fun ch => !decide (ch = '*'))
  let d := removeAll noiseWords (c.length + 1) none c
  let normalized := trimS d
  match PROVIDERS.find? (fun p => includesS (lowerS p.name) normalized) with
  | some p => p.name
  | none =>
    let words := (tokensOf normalized).filter (fun w => w.length > 2)
    joinSpace (words.take 3)

/-- Stable insertion of an element in front of the first entry it may
precede. -/
def insertLe (le : α → α → Bool) (x : α) : List α → List α
  | [] => [x]
  | y :: ys => if le x y then x :: y :: ys else y :: insertLe le x ys

/-- Stable insertion sort (models V8's stable `Array.prototype.sort`
for the total comparators used in this code). -/
def isortLe (le : α → α → Bool) : List α → List α
  | [] => []
  | x :: xs => insertLe le x (isortLe le xs)

/-- Lexicographic UTF-16-code-unit order on strings (all characters in
this development are in the basic plane, where code-point order agrees). -/
def lexLt : Str → Str → Bool
  | [], [] => false
  | [], _ :: _ => true
  | _ :: _, [] => false
  | a :: as, b :: bs =>
    if a.toNat < b.toNat then true
    else if a.toNat = b.toNat then lexLt as bs
    else false

/-- Default lexicographic string sort, as `[...dates].sort()`. -/
def sortStrings (l : List Str) : List Str := isortLe (fun a b => !lexLt b a) l

/-- Date value of a transaction-date string as a JavaScript number of
days (NaN for invalid dates). -/
def jsDateDaysQ (s : Str) : JQ := (jsDateDays s).map (fun z => (z : ℚ))

/-- Transaction imported from CSV or PDF, the `ParsedTransaction` shape
of `importer.ts` (the `raw` provenance field, unread by the detector, is
omitted from the model). -/
structure ParsedTransaction where
  date : Str
  description : Str
  amount : ℚ
  currency : Str
deriving DecidableEq, Repr

/-- An existing subscription, restricted to the two fields the detector
reads during duplicate reconciliation. -/
structure Subscription where
  name : Str
  providerId : Option Str
deriving DecidableEq, Repr

/-- Comparator order of the `txs.sort` call: a transaction may stay
before another unless the comparator `dateA - dateB` is positive.  NaN
date values never force a swap. -/
def txLe (a b : ParsedTransaction) : Bool :=
  !(jlt (jsDateDaysQ b.date) (jsDateDaysQ a.date))

/-- `txs.sort((a, b) => dateA - dateB)`. -/
def sortTxs (txs : List ParsedTransaction) : List ParsedTransaction := isortLe txLe txs

/-- Result record of `detectInterval`. -/
structure IntervalResult where
  interval : Str
  intervalDays : JQ
  confidence : JQ
deriving DecidableEq, Repr

/-- Consecutive gaps of a (sorted) date list, as the `gaps` loop of
`detectInterval`. -/
def gapsOf : List Str → List JQ
  | a :: b :: rest => daysBetween a b :: gapsOf (b :: rest)
  | _ => []

/-- Sum of JavaScript numbers. -/
def jsumL (l : List JQ) : JQ := l.foldr jadd (some 0)

/-- The average consecutive gap of a date list after the lexicographic
sort (NaN when fewer than 2 dates or when some date is invalid). -/
def avgGapOf (dates : List Str) : JQ :=
  let gaps := gapsOf (sortStrings dates)
  jdiv (jsumL gaps) (some (gaps.length : ℚ))

/-- Population variance of the gaps around the average. -/
def varianceOf (gaps : List JQ) (avg : JQ) : JQ :=
  jdiv (gaps.foldl (fun acc g => jadd acc (jmul (jsub g avg) (jsub g avg))) (some 0))
    (some (gaps.length : ℚ))

/-- The interval-band classification of `detectInterval` (yearly,
monthly, weekly, quarterly, in source order; monthly is the default
when no band matches, including for a NaN average gap). -/
def intervalBandOf (avgGap : JQ) : Str :=
  if jle (some 350) avgGap && jle avgGap (some 380) then "yearly".data
  else if jle (some 25) avgGap && jle avgGap (some 35) then "monthly".data
  else if jle (some 5) avgGap && jle avgGap (some 9) then "weekly".data
  else if jle (some 85) avgGap && jle avgGap (some 95) then "quarterly".data
  else "monthly".data

/-- The interval-consistency confidence of `detectInterval`:
`round(Math.max(0, 100 - stdDev/avgGap*100))`. -/
def intervalConfidenceOf (stdDev avgGap : JQ) : JQ :=
  jround (jmax (some 0) (jsub (some 100) (jmul (jdiv stdDev avgGap) (some 100))))

/-- The `detectInterval` function of `importer.ts`: fixed bands on the
average gap and a consistency confidence decaying with the coefficient
of variation of the gaps.  `Math.sqrt` is the function parameter `s`. -/
def detectInterval (s : ℚ → ℚ) (dates : List Str) : IntervalResult :=
  if dates.length < 2 then ⟨"monthly".data, some 30, some 0⟩ else
  let gaps := gapsOf (sortStrings dates)
  let avgGap := avgGapOf dates
  let stdDev := (varianceOf gaps avgGap).map s
  ⟨intervalBandOf avgGap, jround avgGap, intervalConfidenceOf stdDev avgGap⟩

/-- The `areAmountsConsistent` gate of `importer.ts`: every amount must
deviate from the mean by strictly less than the relative tolerance (a
zero mean yields a NaN comparison, hence failure). -/
def areAmountsConsistent (amounts : List ℚ) (tolerance : ℚ) : Bool :=
  if amounts.length < 2 then false else
  let avgAmount := listSum amounts / (amounts.length : ℚ)
  amounts.all (fun a => jlt (jdiv (some |a - avgAmount|) (some |avgAmount|)) (some tolerance))

/-- Absolute amounts of a transaction list (`Math.abs(t.amount)`). -/
def groupAmounts (txs : List ParsedTransaction) : List ℚ := txs.map (fun t => |t.amount|)

/-- Catalog provider whose lower-cased name occurs in the lower-cased
merchant key. -/
def providerMatchOf (merchant : Str) : Option ProviderData :=
  PROVIDERS.find? (fun p => includesS (lowerS p.name) (lowerS merchant))

/-- Duplicate-detection condition against one existing subscription:
equal normalized lower-cased names, or an equal non-empty providerId
shared with the merchant's catalog match. -/
def dupMatches (merchant : Str) (sub : Subscription) : Bool :=
  decide (lowerS (normalizeMerchant sub.name) = lowerS merchant) ||
    (match sub.providerId with
     | some pid =>
       !pid.isEmpty &&
         (match providerMatchOf merchant with
          | some p => decide (p.id = pid)
          | none => false)
     | none => false)

/-- The amount-consistency confidence component:
`100 - (max(amounts) - min(amounts)) / avgAmount * 100`. -/
def amountConsistencyOf (amounts : List ℚ) : JQ :=
  jsub (some 100)
    (jmul (jdiv (some (listMax amounts - listMin amounts))
      (some (listSum amounts / (amounts.length : ℚ)))) (some 100))

/-- The transaction-frequency confidence component:
`Math.min(100, txs.length * 20)`. -/
def transactionFrequencyOf (n : ℕ) : ℚ := min 100 ((n : ℚ) * 20)

/-- The overall confidence of a transaction group:
`round(intervalConfidence*0.4 + amountConsistency*0.3 +
transactionFrequency*0.3)` over the date-sorted group. -/
def groupConfidence (s : ℚ → ℚ) (txs : List ParsedTransaction) : JQ :=
  let sorted := sortTxs txs
  let amounts := groupAmounts sorted
  let dates := sorted.map (·.date)
  jround (jadd
    (jadd (jmul (detectInterval s dates).confidence (some (2/5)))
      (jmul (amountConsistencyOf amounts) (some (3/10))))
    (jmul (some (transactionFrequencyOf txs.length)) (some (3/10))))

/-- The candidate's embedded subscription fields. -/
structure CandidateSubscription where
  name : Str
  price : ℚ
  currency : Str
  interval : Str
  providerId : Option Str
  category : Str
  startDate : Str
  nextPaymentDate : Str
  paymentMethod : Str
  active : Bool
  status : Str
  noticePeriodDays : ℕ
deriving DecidableEq, Repr

/-- A subscription candidate with confidence, as emitted by the
detector. -/
structure SubscriptionCandidate where
  subscription : CandidateSubscription
  confidence : JQ
  transactions : List ParsedTransaction
  interval : Str
  intervalDays : JQ
  reason : Str
deriving DecidableEq, Repr

/-- Per-group body of the detector's `Object.entries(groups).forEach`:
size gate, date sort, amount-consistency gate, interval detection,
confidence computation and 40-point threshold, provider match,
duplicate detection, and candidate construction.  On transaction groups
whose last date is invalid the original code would throw on
`toISOString`; that unreachable-for-claims path is modelled by an empty
`nextPaymentDate`. -/
def processGroup (s : ℚ → ℚ) (subs : List Subscription) (merchant : Str)
    (txs : List ParsedTransaction) : Option SubscriptionCandidate :=
  if txs.length < 2 then none else
  let sorted := sortTxs txs
  let amounts := groupAmounts sorted
  let dates := sorted.map (·.date)
  if !areAmountsConsistent amounts (1/10) then none else
  let avgAmount := listSum amounts / (amounts.length : ℚ)
  let r := detectInterval s dates
  let confidence := groupConfidence s txs
  if jlt confidence (some 40) then none else
  let providerMatch := providerMatchOf merchant
  let dup := subs.find? (dupMatches merchant)
  let reason : Str :=
    match dup with
    | some _ => "Existing subscription - price change detected".data
    | none => natToStr txs.length ++ " transactions detected".data
  let nextPayment : Str :=
    match jsDateDays (dates.getLastD []), r.intervalDays with
    | some base, some iv => isoOfDays (base + ⌊iv⌋)
    | _, _ => []
  some
    { subscription :=
        { name := match providerMatch with
            | some p => p.name
            | none => capitalizeFirst merchant,
          price := avgAmount,
          currency :=
            match sorted.head? with
            | some t => if t.currency = [] then "EUR".data else t.currency
            | none => "EUR".data,
          interval := r.interval,
          providerId := providerMatch.map (fun p => p.id),
          category :=
            match providerMatch with
            | some p => p.category
            | none => "Other".data,
          startDate := dates.headD [],
          nextPaymentDate := nextPayment,
          paymentMethod := "Bank Transfer".data,
          active := true,
          status := "active".data,
          noticePeriodDays :=
            match providerMatch with
            | some p =>
              match p.noticePeriodInfo with
              | some info => if info = [] then 14 else 30
              | none => 14
            | none => 14 },
      confidence := confidence,
      transactions := sorted,
      interval := r.interval,
      intervalDays := r.intervalDays,
      reason := reason }

/-- Append a transaction to its merchant's group, preserving the
first-seen key order of the JavaScript object. -/
def addToGroups (gs : List (Str × List ParsedTransaction)) (key : Str)
    (tx : ParsedTransaction) : List (Str × List ParsedTransaction) :=
  match gs with
  | [] => [(key, [tx])]
  | (k, l) :: rest =>
    if k = key then (k, l ++ [tx]) :: rest else (k, l) :: addToGroups rest key tx

/-- Group the transactions by normalized merchant, skipping transactions
whose merchant key normalizes to the empty string. -/
def groupByMerchant (txs : List ParsedTransaction) : List (Str × List ParsedTransaction) :=
  txs.foldl
    (fun gs tx =>
      let merchant := normalizeMerchant tx.description
      if merchant = [] then gs else addToGroups gs merchant tx)
    []

/-- Candidate comparator order of the final
`sort((a, b) => b.confidence - a.confidence)`: a candidate may stay
before another unless the other's confidence is strictly greater (NaN
confidences never force a swap). -/
def candLe (a b : SubscriptionCandidate) : Bool := !(jlt a.confidence b.confidence)

/-- The main `analyzeImportedTransactions` of `importer.ts`: group by
normalized merchant, analyze each group, and rank the surviving
candidates by descending confidence (stable sort). -/
def analyzeImportedTransactions (s : ℚ → ℚ) (txs : List ParsedTransaction)
    (subs : List Subscription) : List SubscriptionCandidate :=
  let groups := groupByMerchant txs
  isortLe candLe (groups.filterMap (fun g => processGroup s subs g.1 g.2))

/-- CSV column mapping (absent entries fall back to the literal default
column names, to which the source's dead `|| 'Datum'`-style alternatives
constant-fold). -/
structure ColumnMapping where
  date : Option Str
  description : Option Str
  amount : Option Str
  currency : Option Str
deriving DecidableEq, Repr

/-- Object property lookup on a CSV row (rows are modelled as
string-to-string association lists). -/
def lookupRow (row : List (Str × Str)) (key : Str) : Option Str :=
  (row.find? (fun pr => pr.1 = key)).map (fun pr => pr.2)

/-- The `parseCSVRow` function of `importer.ts`: resolve the mapped
columns, fail on a missing or empty date or description or a missing
amount, strip the amount down to digits, dots, commas and minus signs,
turn the first comma into a dot, `parseFloat`, and fail on NaN.
Currency defaults to `EUR` when absent or empty. -/
def parseCSVRow (row : List (Str × Str)) (mapping : ColumnMapping) :
    Option ParsedTransaction :=
  let dateCol := mapping.date.getD "date".data
  let descCol := mapping.description.getD "description".data
  let amountCol := mapping.amount.getD "amount".data
  let currencyCol := mapping.currency.getD "currency".data
  let currency : Str :=
    match lookupRow row currencyCol with
    | some c => if c = [] then "EUR".data else c
    | none => "EUR".data
  match lookupRow row dateCol, lookupRow row descCol, lookupRow row amountCol with
  | some d, some desc, some amt =>
    if d = [] ∨ desc = [] then none else
    let amtNum := jsParseFloat (replaceFirstComma (amt.filter
      (fun c => isDigitC c || decide (c = '.') || decide (c = ',') || decide (c = '-'))))
    match amtNum with
    | none => none
    | some q => some { date := d, description := desc, amount := q, currency := currency }
  | _, _, _ => none

/-- Test group for the amount-consistency gate: three monthly
transactions of one merchant with amounts 10.00, 10.00 and 11.50. -/
def gateTx1 : ParsedTransaction := ⟨"2024-01-01".data, "Acme Gym".data, 10, "EUR".data⟩

/-- Second transaction of the gate test group. -/
def gateTx2 : ParsedTransaction := ⟨"2024-02-01".data, "Acme Gym".data, 10, "EUR".data⟩

/-- Third transaction of the gate test group (amount 11.50). -/
def gateTx3 : ParsedTransaction := ⟨"2024-03-01".data, "Acme Gym".data, 23/2, "EUR".data⟩

/-- The `[10.00, 10.00, 11.50]` transaction group. -/
def gateGroupTxs : List ParsedTransaction := [gateTx1, gateTx2, gateTx3]

/-- A Netflix transaction (description normalizing to the catalog name). -/
def nfTx1 : ParsedTransaction := ⟨"2024-01-05".data, "Netflix".data, 1299/100, "EUR".data⟩

/-- Second monthly Netflix transaction. -/
def nfTx2 : ParsedTransaction := ⟨"2024-02-05".data, "Netflix".data, 1299/100, "EUR".data⟩

/-- Third monthly Netflix transaction. -/
def nfTx3 : ParsedTransaction := ⟨"2024-03-05".data, "Netflix".data, 1299/100, "EUR".data⟩

/-- The Netflix transaction group. -/
def nfTxs : List ParsedTransaction := [nfTx1, nfTx2, nfTx3]

/-- An existing subscription named Netflix (no provider id). -/
def nfSub : Subscription := ⟨"Netflix".data, none⟩

/-- Two transactions of one merchant on the same calendar day. -/
def sameDayTx1 : ParsedTransaction := ⟨"2024-01-15".data, "Acme Service".data, 999/100, "EUR".data⟩

/-- Second same-day transaction (identical date and amount). -/
def sameDayTx2 : ParsedTransaction := ⟨"2024-01-15".data, "Acme Service".data, 999/100, "EUR".data⟩

/-- The same-day transaction group. -/
def sameDayTxs : List ParsedTransaction := [sameDayTx1, sameDayTx2]

/-- Placeholder candidate used as a `getD` default when reading back a
computed candidate. -/
def junkCandidate : SubscriptionCandidate :=
  ⟨⟨[], 0, [], [], none, [], [], [], [], false, [], 0⟩, none, [], [], none, []⟩

/-- The candidate the detector computes for the gate test group. -/
def cAcme : SubscriptionCandidate :=
  (analyzeImportedTransactions Rat.sqrt gateGroupTxs []).headD junkCandidate

/-- The candidate the detector computes for the Netflix group against
the existing Netflix subscription. -/
def cNf : SubscriptionCandidate :=
  (processGroup Rat.sqrt [nfSub] "Netflix".data nfTxs).getD junkCandidate

/-- A CSV row whose amount column holds a negative charge. -/
def negRow : List (Str × Str) :=
  [("date".data, "2024-01-01".data), ("description".data, "Acme Service".data),
   ("amount".data, "-9.99".data)]

/-- The all-default column mapping. -/
def emptyMapping : ColumnMapping := ⟨none, none, none, none⟩

/-- Fifty characters of extracted text (for the scanned-PDF witness). -/
def scannedText : Str := "aaaaaaaaaaaaaaaaaaaaaaaaaaaaaaaaaaaaaaaaaaaaaaaaaa".data

/-- A German-format PDF statement line with a date and an EUR amount. -/
def germanLine : Str := "01.02.2024 Acme Dienst 1.234,56 EUR".data

/-- Placeholder extracted transaction used as a `headD` default. -/
def junkExtracted : ExtractedTransaction := ⟨[], [], 0, [], []⟩

/-- The transaction extracted from `germanLine`. -/
def pdfTxDemo : ExtractedTransaction :=
  (extractTransactionsFromPDFText germanLine).headD junkExtracted

/-- A regex piece none of whose matches can consume a minus sign. -/
def NoMinus (M : Str → Parses) : Prop :=
  ∀ s pr, pr ∈ M s → ∀ c ∈ pr.1, c ≠ '-'

/-- A context matcher none of whose matches contains a minus sign. -/
def NoMinusCtx (M : CtxMatcher) : Prop :=
  ∀ prev s pr, pr ∈ M prev s → ∀ c ∈ pr.1, c ≠ '-'

/-! Basic inversion lemmas for the JavaScript-number operations. -/

theorem jadd_eq_some {a b : JQ} {z : ℚ} (h : jadd a b = some z) :
    ∃ x y, a = some x ∧ b = some y ∧ z = x + y := by
  cases a with
  | none => simp [jadd] at h
  | some x =>
    cases b with
    | none => simp [jadd] at h
    | some y => exact ⟨x, y, rfl, rfl, (Option.some.inj h).symm⟩

theorem jmul_eq_some {a b : JQ} {z : ℚ} (h : jmul a b = some z) :
    ∃ x y, a = some x ∧ b = some y ∧ z = x * y := by
  cases a with
  | none => simp [jmul] at h
  | some x =>
    cases b with
    | none => simp [jmul] at h
    | some y => exact ⟨x, y, rfl, rfl, (Option.some.inj h).symm⟩

theorem jsub_eq_some {a b : JQ} {z : ℚ} (h : jsub a b = some z) :
    ∃ x y, a = some x ∧ b = some y ∧ z = x - y := by
  cases a with
  | none => simp [jsub] at h
  | some x =>
    cases b with
    | none => simp [jsub] at h
    | some y => exact ⟨x, y, rfl, rfl, (Option.some.inj h).symm⟩

theorem jdiv_eq_some {a b : JQ} {z : ℚ} (h : jdiv a b = some z) :
    ∃ x y, a = some x ∧ b = some y ∧ y ≠ 0 ∧ z = x / y := by
  cases a with
  | none => simp [jdiv] at h
  | some x =>
    cases b with
    | none => simp [jdiv] at h
    | some y =>
      by_cases hy : y = 0
      · simp [jdiv, hy] at h
      · refine ⟨x, y, rfl, rfl, hy, ?_⟩
        simp [jdiv, hy] at h
        exact h.symm

theorem jdiv_none_right (a : JQ) : jdiv a none = none := by
  cases a <;> rfl

theorem jdiv_zero_right (a : JQ) : jdiv a (some 0) = none := by
  cases a <;> simp [jdiv]

theorem jmul_none_left (b : JQ) : jmul none b = none := by
  cases b <;> rfl

theorem jadd_none_left (b : JQ) : jadd none b = none := by
  cases b <;> rfl

theorem jsub_none_right (a : JQ) : jsub a none = none := by
  cases a <;> rfl

theorem jmax_none_right (a : JQ) : jmax a none = none := by
  cases a <;> rfl

/-! Stable insertion sort lemmas. -/

theorem insertLe_length {α : Type} (le : α → α → Bool) (x : α) (l : List α) :
    (insertLe le x l).length = l.length + 1 := by
  induction l with
  | nil => rfl
  | cons y ys ih =>
    simp only [insertLe]
    split
    · simp
    · simp [ih]

theorem isortLe_length {α : Type} (le : α → α → Bool) (l : List α) :
    (isortLe le l).length = l.length := by
  induction l with
  | nil => rfl
  | cons x xs ih => simp [isortLe, insertLe_length, ih]

theorem mem_insertLe {α : Type} {le : α → α → Bool} {x a : α} {l : List α} :
    a ∈ insertLe le x l ↔ a = x ∨ a ∈ l := by
  induction l with
  | nil => simp [insertLe]
  | cons y ys ih =>
    simp only [insertLe]
    split
    · simp [or_comm, or_assoc, or_left_comm]
    · simp [ih]
      tauto

theorem mem_isortLe {α : Type} {le : α → α → Bool} {a : α} {l : List α} :
    a ∈ isortLe le l ↔ a ∈ l := by
  induction l with
  | nil => simp [isortLe]
  | cons x xs ih => simp [isortLe, mem_insertLe, ih]

/-! Fold lemmas for list maximum, minimum and sum. -/

theorem foldl_max_cases (x : ℚ) (xs : List ℚ) :
    xs.foldl max x = x ∨ xs.foldl max x ∈ xs := by
  induction xs generalizing x with
  | nil => simp
  | cons y ys ih =>
    have h0 : (y :: ys).foldl max x = ys.foldl max (max x y) := rfl
    rcases ih (max x y) with h | h
    · rcases max_choice x y with hm | hm
      · left
        rw [h0, h, hm]
      · right
        rw [h0, h, hm]
        exact List.mem_cons_self y ys
    · right
      rw [h0]
      exact List.mem_cons_of_mem y h

theorem le_foldl_max (x : ℚ) (xs : List ℚ) : x ≤ xs.foldl max x := by
  induction xs generalizing x with
  | nil => simp
  | cons y ys ih => exact le_trans (le_max_left x y) (ih (max x y))

theorem mem_le_foldl_max {a : ℚ} : ∀ {xs : List ℚ} (x : ℚ), a ∈ xs → a ≤ xs.foldl max x
  | y :: ys, x, h => by
    rcases List.mem_cons.mp h with rfl | h2
    · exact le_trans (le_max_right x a) (le_foldl_max _ ys)
    · exact mem_le_foldl_max (max x y) h2

theorem listMax_mem {l : List ℚ} (h : l ≠ []) : listMax l ∈ l := by
  match l with
  | x :: xs =>
    rcases foldl_max_cases x xs with hc | hc
    · simp [listMax, hc]
    · simp [listMax]
      right
      exact hc

theorem le_listMax {a : ℚ} {l : List ℚ} (h : a ∈ l) : a ≤ listMax l := by
  match l with
  | x :: xs =>
    rcases List.mem_cons.mp h with rfl | h2
    · exact le_foldl_max a xs
    · exact mem_le_foldl_max x h2

theorem foldl_min_cases (x : ℚ) (xs : List ℚ) :
    xs.foldl min x = x ∨ xs.foldl min x ∈ xs := by
  induction xs generalizing x with
  | nil => simp
  | cons y ys ih =>
    have h0 : (y :: ys).foldl min x = ys.foldl min (min x y) := rfl
    rcases ih (min x y) with h | h
    · rcases min_choice x y with hm | hm
      · left
        rw [h0, h, hm]
      · right
        rw [h0, h, hm]
        exact List.mem_cons_self y ys
    · right
      rw [h0]
      exact List.mem_cons_of_mem y h

theorem foldl_min_le (x : ℚ) (xs : List ℚ) : xs.foldl min x ≤ x := by
  induction xs generalizing x with
  | nil => simp
  | cons y ys ih => exact le_trans (ih (min x y)) (min_le_left x y)

theorem foldl_min_le_mem {a : ℚ} : ∀ {xs : List ℚ} (x : ℚ), a ∈ xs → xs.foldl min x ≤ a
  | y :: ys, x, h => by
    rcases List.mem_cons.mp h with rfl | h2
    · exact le_trans (foldl_min_le _ ys) (min_le_right x a)
    · exact foldl_min_le_mem (min x y) h2

theorem listMin_mem {l : List ℚ} (h : l ≠ []) : listMin l ∈ l := by
  match l with
  | x :: xs =>
    rcases foldl_min_cases x xs with hc | hc
    · simp [listMin, hc]
    · simp [listMin]
      right
      exact hc

theorem listMin_le {a : ℚ} {l : List ℚ} (h : a ∈ l) : listMin l ≤ a := by
  match l with
  | x :: xs =>
    rcases List.mem_cons.mp h with rfl | h2
    · exact foldl_min_le a xs
    · exact foldl_min_le_mem x h2

theorem listSum_nonneg {l : List ℚ} (h : ∀ a ∈ l, 0 ≤ a) : 0 ≤ listSum l := by
  induction l with
  | nil => simp [listSum]
  | cons x xs ih =>
    have hx := h x (List.mem_cons_self x xs)
    have hxs := ih (fun a ha => h a (List.mem_cons_of_mem x ha))
    simpa [listSum] using add_nonneg hx hxs

/-! Consequences of the amount-consistency gate. -/

theorem gate_facts {amounts : List ℚ} {tol : ℚ}
    (hnn : ∀ a ∈ amounts, 0 ≤ a)
    (hg : areAmountsConsistent amounts tol = true) :
    2 ≤ amounts.length ∧ 0 < listSum amounts / (amounts.length : ℚ) ∧
      ∀ a ∈ amounts,
        |a - listSum amounts / (amounts.length : ℚ)| <
          listSum amounts / (amounts.length : ℚ) * tol := by
  unfold areAmountsConsistent at hg
  split at hg
  · cases hg
  · rename_i hlen
    have h2 : 2 ≤ amounts.length := by omega
    have hall := List.all_eq_true.mp hg
    set avg := listSum amounts / (amounts.length : ℚ) with havgdef
    have havg_nonneg : 0 ≤ avg := by
      apply div_nonneg (listSum_nonneg hnn)
      positivity
    have hne : amounts ≠ [] := by
      intro hempty
      rw [hempty] at h2
      simp at h2
    obtain ⟨a0, ha0⟩ := List.exists_mem_of_ne_nil amounts hne
    have h0 := hall a0 ha0
    have havg_ne : |avg| ≠ 0 := by
      intro hz
      rw [jdiv, hz] at h0
      simp [jlt] at h0
    have havg_pos : 0 < avg := by
      rcases lt_or_eq_of_le havg_nonneg with h | h
      · exact h
      · exact absurd (by rw [← h]; simp) havg_ne
    refine ⟨h2, havg_pos, fun a ha => ?_⟩
    have h1 := hall a ha
    rw [jdiv] at h1
    rw [if_neg havg_ne] at h1
    simp only [jlt, decide_eq_true_eq] at h1
    rw [abs_of_pos havg_pos] at h1
    calc |a - avg| = |a - avg| / avg * avg := by
          field_simp
      _ < tol * avg := by
          apply mul_lt_mul_of_pos_right h1 havg_pos
      _ = avg * tol := mul_comm tol avg

theorem amountConsistencyOf_bounds {amounts : List ℚ}
    (hnn : ∀ a ∈ amounts, 0 ≤ a)
    (hg : areAmountsConsistent amounts (1/10) = true) :
    ∃ a, amountConsistencyOf amounts = some a ∧ 80 < a ∧ a ≤ 100 := by
  obtain ⟨h2, havg_pos, hdev⟩ := gate_facts hnn hg
  set avg := listSum amounts / (amounts.length : ℚ) with havgdef
  have hne : amounts ≠ [] := by
    intro hempty
    rw [hempty] at h2
    simp at h2
  have hmaxm := listMax_mem hne
  have hminm := listMin_mem hne
  have hminmax : listMin amounts ≤ listMax amounts := listMin_le hmaxm
  have hrange_nonneg : 0 ≤ listMax amounts - listMin amounts := sub_nonneg.mpr hminmax
  have hrange_lt : listMax amounts - listMin amounts < avg * (1/5) := by
    have hdmax := hdev _ hmaxm
    have hdmin := hdev _ hminm
    have h1 : listMax amounts - avg ≤ |listMax amounts - avg| := le_abs_self _
    have h2b : avg - listMin amounts ≤ |listMin amounts - avg| := by
      rw [abs_sub_comm]
      exact le_abs_self _
    have : listMax amounts - listMin amounts =
        (listMax amounts - avg) + (avg - listMin amounts) := by ring
    rw [this]
    calc (listMax amounts - avg) + (avg - listMin amounts)
        ≤ |listMax amounts - avg| + |listMin amounts - avg| := add_le_add h1 h2b
      _ < avg * (1/10) + avg * (1/10) := add_lt_add hdmax hdmin
      _ = avg * (1/5) := by ring
  have havg_ne : avg ≠ 0 := ne_of_gt havg_pos
  refine ⟨100 - (listMax amounts - listMin amounts) / avg * 100, ?_, ?_, ?_⟩
  · unfold amountConsistencyOf
    rw [← havgdef, jdiv, if_neg havg_ne]
    rfl
  · have hq : (listMax amounts - listMin amounts) / avg < 1/5 := by
      rw [div_lt_iff₀ havg_pos]
      calc listMax amounts - listMin amounts < avg * (1/5) := hrange_lt
        _ = 1/5 * avg := mul_comm _ _
    nlinarith
  · have hq : 0 ≤ (listMax amounts - listMin amounts) / avg :=
      div_nonneg hrange_nonneg (le_of_lt havg_pos)
    nlinarith

/-! Gap and variance lemmas for interval detection. -/

theorem daysBetween_nonneg {a b : Str} {v : ℚ} (h : daysBetween a b = some v) : 0 ≤ v := by
  unfold daysBetween at h
  split at h
  · rw [Option.some.injEq] at h
    rw [← h]
    exact abs_nonneg _
  · cases h

theorem gapsOf_shape {g : JQ} : ∀ {l : List Str}, g ∈ gapsOf l → ∃ a b, g = daysBetween a b
  | a :: b :: rest, h => by
    rw [show gapsOf (a :: b :: rest) = daysBetween a b :: gapsOf (b :: rest) from rfl] at h
    rcases List.mem_cons.mp h with rfl | h2
    · exact ⟨a, b, rfl⟩
    · exact gapsOf_shape h2

theorem gapsOf_length : ∀ (l : List Str), (gapsOf l).length = l.length - 1
  | [] => rfl
  | [_] => rfl
  | a :: b :: rest => by
    rw [show gapsOf (a :: b :: rest) = daysBetween a b :: gapsOf (b :: rest) from rfl]
    simp [gapsOf_length (b :: rest)]

theorem jsumL_eq_some_nonneg {v : ℚ} :
    ∀ {l : List JQ}, jsumL l = some v → (∀ g ∈ l, ∀ w, g = some w → 0 ≤ w) → 0 ≤ v := by
  intro l
  induction l generalizing v with
  | nil =>
    intro h _
    rw [show jsumL [] = some 0 from rfl] at h
    rw [← Option.some.inj h]
  | cons g gs ih =>
    intro h hnn
    rw [show jsumL (g :: gs) = jadd g (jsumL gs) from rfl] at h
    obtain ⟨x, y, hx, hy, rfl⟩ := jadd_eq_some h
    have h1 := hnn g (List.mem_cons_self g gs) x hx
    have h2 := ih hy (fun a ha => hnn a (List.mem_cons_of_mem g ha))
    linarith

theorem jvarfold_none (avg : JQ) (l : List JQ) :
    l.foldl (fun acc g => jadd acc (jmul (jsub g avg) (jsub g avg))) none = none := by
  induction l with
  | nil => rfl
  | cons g gs ih =>
    have h0 : jadd none (jmul (jsub g avg) (jsub g avg)) = none := jadd_none_left _
    simpa [List.foldl, h0] using ih

theorem jvarfold_nonneg {avg : JQ} :
    ∀ {l : List JQ} {acc : JQ} {v a : ℚ},
      l.foldl (fun acc g => jadd acc (jmul (jsub g avg) (jsub g avg))) acc = some v →
      acc = some a → 0 ≤ a → 0 ≤ v := by
  intro l
  induction l with
  | nil =>
    intro acc v a h hacc ha
    rw [List.foldl_nil] at h
    rw [hacc] at h
    rw [← Option.some.inj h]
    exact ha
  | cons g gs ih =>
    intro acc v a h hacc ha
    rw [List.foldl_cons] at h
    rcases h2 : jadd acc (jmul (jsub g avg) (jsub g avg)) with _ | a2
    · rw [h2, jvarfold_none] at h
      cases h
    · obtain ⟨x, y, hx, hy, hsum⟩ := jadd_eq_some h2
      obtain ⟨d1, d2, hd1, hd2, hprod⟩ := jmul_eq_some hy
      rw [hd1] at hd2
      have hd : d2 = d1 := (Option.some.inj hd2).symm
      have hy_nonneg : 0 ≤ y := by
        rw [hprod, hd]
        exact mul_self_nonneg d1
      have hx_eq : x = a := by
        rw [hacc] at hx
        exact (Option.some.inj hx).symm
      rw [h2] at h
      exact ih h rfl (by rw [hsum, hx_eq]; linarith)

theorem varianceOf_nonneg {gaps : List JQ} {avg : JQ} {w : ℚ}
    (h : varianceOf gaps avg = some w) : 0 ≤ w := by
  unfold varianceOf at h
  obtain ⟨x, y, hx, hy, hyne, rfl⟩ := jdiv_eq_some h
  have hxnn : 0 ≤ x := jvarfold_nonneg hx rfl le_rfl
  have hynn : 0 ≤ y := by
    rw [Option.some.injEq] at hy
    rw [← hy]
    positivity
  exact div_nonneg hxnn hynn

theorem jdiv_none_left (b : JQ) : jdiv none b = none := by
  cases b <;> rfl

theorem sortStrings_length (l : List Str) : (sortStrings l).length = l.length :=
  isortLe_length _ _

theorem sortTxs_length (l : List ParsedTransaction) : (sortTxs l).length = l.length :=
  isortLe_length _ _

theorem detectInterval_conf_cases (s : ℚ → ℚ) (hs0 : s 0 = 0)
    (hsn : ∀ q, 0 ≤ q → 0 ≤ s q) (dates : List Str) (h2 : 2 ≤ dates.length) :
    (detectInterval s dates).confidence = none ∨
      ∃ i : ℤ, (detectInterval s dates).confidence = some (i : ℚ) ∧ 0 ≤ i ∧ i ≤ 100 ∧
        (dates.length = 2 → i = 100) := by
  have hnotlt : ¬ dates.length < 2 := by omega
  have hconf : (detectInterval s dates).confidence =
      intervalConfidenceOf ((varianceOf (gapsOf (sortStrings dates)) (avgGapOf dates)).map s)
        (avgGapOf dates) := by
    unfold detectInterval
    rw [if_neg hnotlt]
  rw [hconf]
  have havgeq : avgGapOf dates =
      jdiv (jsumL (gapsOf (sortStrings dates)))
        (some (((gapsOf (sortStrings dates)).length : ℚ))) := rfl
  set G := gapsOf (sortStrings dates) with hGdef
  have hGlen : G.length = dates.length - 1 := by
    rw [hGdef, gapsOf_length, sortStrings_length]
  have hGlenQ : ((G.length : ℚ)) ≠ 0 := by
    have : G.length ≠ 0 := by omega
    exact_mod_cast this
  have hGnn : ∀ g ∈ G, ∀ w, g = some w → 0 ≤ w := by
    intro g hgmem w hw
    obtain ⟨a, b, rfl⟩ := gapsOf_shape hgmem
    exact daysBetween_nonneg hw
  rcases hsum : jsumL G with _ | sv
  · left
    rw [havgeq, hsum, jdiv_none_left]
    have hvn : ∀ X : JQ, intervalConfidenceOf X none = none := by
      intro X
      unfold intervalConfidenceOf
      rw [jdiv_none_right, jmul_none_left, jsub_none_right, jmax_none_right]
      rfl
    exact hvn _
  · have hsvnn : 0 ≤ sv := jsumL_eq_some_nonneg hsum hGnn
    have havg2 : avgGapOf dates = some (sv / (G.length : ℚ)) := by
      rw [havgeq, hsum, jdiv, if_neg hGlenQ]
    set Gv := sv / (G.length : ℚ) with hGvdef
    have hGvnn : 0 ≤ Gv := by
      apply div_nonneg hsvnn
      positivity
    by_cases hGv0 : Gv = 0
    · left
      rw [havg2, hGv0]
      have hvn : ∀ X : JQ, intervalConfidenceOf X (some 0) = none := by
        intro X
        unfold intervalConfidenceOf
        rw [jdiv_zero_right, jmul_none_left, jsub_none_right, jmax_none_right]
        rfl
      exact hvn _
    · have hGvpos : 0 < Gv := lt_of_le_of_ne hGvnn (Ne.symm hGv0)
      rcases hvar : varianceOf G (avgGapOf dates) with _ | w
      · left
        rw [havg2]
        unfold intervalConfidenceOf
        rw [show (Option.map s (none : Option ℚ)) = none from rfl, jdiv_none_left,
          jmul_none_left, jsub_none_right, jmax_none_right]
        rfl
      · have hwnn : 0 ≤ w := varianceOf_nonneg hvar
        have hswnn : 0 ≤ s w := hsn w hwnn
        right
        have hcomp : intervalConfidenceOf ((some w).map s) (avgGapOf dates) =
            some ((⌊max 0 (100 - s w / Gv * 100) + 1/2⌋ : ℤ) : ℚ) := by
          rw [havg2]
          unfold intervalConfidenceOf
          rw [show (Option.map s (some w)) = some (s w) from rfl, jdiv, if_neg hGv0]
          rfl
        refine ⟨⌊max 0 (100 - s w / Gv * 100) + 1/2⌋, hcomp, ?_, ?_, ?_⟩
        · apply Int.le_floor.mpr
          push_cast
          have : (0:ℚ) ≤ max 0 (100 - s w / Gv * 100) := le_max_left 0 _
          linarith
        · have hlt : max 0 (100 - s w / Gv * 100) + 1/2 < ((101 : ℤ) : ℚ) := by
            have hdivnn : 0 ≤ s w / Gv := div_nonneg hswnn hGvnn
            have h1 : (100 : ℚ) - s w / Gv * 100 ≤ 100 := by nlinarith
            have h2b : max 0 (100 - s w / Gv * 100) ≤ 100 := max_le (by norm_num) h1
            push_cast
            linarith
          have hfl := Int.floor_lt.mpr hlt
          omega
        · intro hn2
          have hG1 : G.length = 1 := by omega
          obtain ⟨g0, hG1e⟩ := List.length_eq_one.mp hG1
          rw [hG1e] at hsum
          rw [show jsumL [g0] = jadd g0 (some 0) from rfl] at hsum
          obtain ⟨x, y, hx, hy, hxy⟩ := jadd_eq_some hsum
          have hy0 : y = 0 := (Option.some.inj hy).symm
          have hxsv : x = sv := by
            rw [hxy, hy0, add_zero]
          have hGvsv : Gv = sv := by
            rw [hGvdef, hG1]
            norm_num
          have hw0 : w = 0 := by
            have hvc : varianceOf G (avgGapOf dates) = some 0 := by
              rw [hG1e, havg2]
              unfold varianceOf
              rw [show ([g0] : List JQ).foldl
                  (fun acc g => jadd acc (jmul (jsub g (some Gv)) (jsub g (some Gv)))) (some 0) =
                  jadd (some 0) (jmul (jsub g0 (some Gv)) (jsub g0 (some Gv))) from rfl]
              rw [hx, hxsv, ← hGvsv]
              rw [show jsub (some Gv) (some Gv) = some 0 from by simp [jsub]]
              rw [show jmul (some (0:ℚ)) (some 0) = some 0 from by simp [jmul]]
              rw [show jadd (some (0:ℚ)) (some 0) = some 0 from by simp [jadd]]
              simp [jdiv]
            rw [hvar] at hvc
            exact Option.some.inj hvc
          rw [hw0, hs0]
          rw [show (0:ℚ) / Gv * 100 = 0 from by field_simp]
          norm_num

theorem groupConfidence_cases (s : ℚ → ℚ) (hs0 : s 0 = 0) (hsn : ∀ q, 0 ≤ q → 0 ≤ s q)
    (txs : List ParsedTransaction) (h2 : 2 ≤ txs.length)
    (hg : areAmountsConsistent (groupAmounts (sortTxs txs)) (1/10) = true) :
    groupConfidence s txs = none ∨
      ∃ n : ℤ, groupConfidence s txs = some (n : ℚ) ∧ 42 ≤ n ∧ n ≤ 100 := by
  have heq : groupConfidence s txs =
      jround (jadd
        (jadd (jmul (detectInterval s ((sortTxs txs).map (fun t => t.date))).confidence
            (some (2/5)))
          (jmul (amountConsistencyOf (groupAmounts (sortTxs txs))) (some (3/10))))
        (jmul (some (transactionFrequencyOf txs.length)) (some (3/10)))) := rfl
  have hnn : ∀ a ∈ groupAmounts (sortTxs txs), 0 ≤ a := by
    intro a ha
    obtain ⟨t, _, rfl⟩ := List.mem_map.mp ha
    exact abs_nonneg _
  obtain ⟨a, hac, ha80, ha100⟩ := amountConsistencyOf_bounds hnn hg
  have hdlen : ((sortTxs txs).map (fun t => t.date)).length = txs.length := by
    rw [List.length_map, sortTxs_length]
  have hdl2 : 2 ≤ ((sortTxs txs).map (fun t => t.date)).length := by omega
  set tf := transactionFrequencyOf txs.length with htf
  have htf100 : tf ≤ 100 := min_le_left _ _
  have htf2 : txs.length = 2 → tf = 40 := by
    intro hn
    rw [htf]
    unfold transactionFrequencyOf
    rw [hn]
    norm_num
  have htf3 : 3 ≤ txs.length → 60 ≤ tf := by
    intro hn
    rw [htf]
    unfold transactionFrequencyOf
    have h60 : (60:ℚ) ≤ (txs.length : ℚ) * 20 := by
      have : (3:ℚ) ≤ (txs.length : ℚ) := by exact_mod_cast hn
      nlinarith
    exact le_min (by norm_num) h60
  rcases detectInterval_conf_cases s hs0 hsn _ hdl2 with hic | ⟨i, hic, hi0, hi100, hi2⟩
  · left
    rw [heq, hic, jmul_none_left, jadd_none_left, jadd_none_left]
    rfl
  · right
    have hall : jadd (jadd (jmul (some ((i:ℤ):ℚ)) (some (2/5))) (jmul (some a) (some (3/10))))
        (jmul (some tf) (some (3/10))) =
        some (((i:ℤ):ℚ) * (2/5) + a * (3/10) + tf * (3/10)) := by
      simp [jadd, jmul]
    set raw := ((i:ℤ):ℚ) * (2/5) + a * (3/10) + tf * (3/10) with hraw
    clear_value tf
    clear_value raw
    have hrawgt : 42 < raw := by
      by_cases hn2 : txs.length = 2
      · have hieq : i = 100 := hi2 (by omega)
        have htfeq : tf = 40 := htf2 hn2
        rw [hraw, hieq, htfeq]
        push_cast
        nlinarith
      · have hn3 : 3 ≤ txs.length := by omega
        have htfge : 60 ≤ tf := htf3 hn3
        have hi0q : (0:ℚ) ≤ ((i:ℤ):ℚ) := by exact_mod_cast hi0
        rw [hraw]
        nlinarith
    have hrawle : raw ≤ 100 := by
      have hi100q : ((i:ℤ):ℚ) ≤ 100 := by exact_mod_cast hi100
      rw [hraw]
      nlinarith
    refine ⟨⌊raw + 1/2⌋, ?_, ?_, ?_⟩
    · rw [heq, hic, hac, hall]
      rfl
    · apply Int.le_floor.mpr
      push_cast
      linarith
    · have hlt : raw + 1/2 < ((101 : ℤ) : ℚ) := by
        push_cast
        linarith
      have hfl := Int.floor_lt.mpr hlt
      omega


theorem processGroup_some_facts {s : ℚ → ℚ} {subs : List Subscription} {merchant : Str}
    {txs : List ParsedTransaction} {c : SubscriptionCandidate}
    (h : processGroup s subs merchant txs = some c) :
    2 ≤ txs.length ∧
      areAmountsConsistent (groupAmounts (sortTxs txs)) (1/10) = true ∧
      jlt (groupConfidence s txs) (some 40) = false ∧
      c.confidence = groupConfidence s txs ∧
      c.reason = (match subs.find? (dupMatches merchant) with
        | some _ => "Existing subscription - price change detected".data
        | none => natToStr txs.length ++ " transactions detected".data) := by
  unfold processGroup at h
  split at h
  · cases h
  · rename_i hlen
    simp only [] at h
    split at h
    · cases h
    · rename_i hgate
      split at h
      · cases h
      · rename_i hconf
        have hc := Option.some.inj h
        simp only [Bool.not_eq_true, Bool.not_eq_false, Bool.not_eq_true'] at hgate
        simp only [Bool.not_eq_true] at hconf
        refine ⟨by omega, hgate, hconf, ?_, ?_⟩
        · rw [← hc]
        · rw [← hc]

theorem mem_analyze {s : ℚ → ℚ} {txs : List ParsedTransaction} {subs : List Subscription}
    {c : SubscriptionCandidate} (h : c ∈ analyzeImportedTransactions s txs subs) :
    ∃ m g, (m, g) ∈ groupByMerchant txs ∧ processGroup s subs m g = some c := by
  unfold analyzeImportedTransactions at h
  rw [mem_isortLe] at h
  obtain ⟨⟨m, g⟩, hmem, hpg⟩ := List.mem_filterMap.mp h
  exact ⟨m, g, hmem, hpg⟩

theorem ratSqrt_zero : Rat.sqrt 0 = 0 := by
  have h := Rat.sqrt_eq (0 : ℚ)
  rw [mul_zero] at h
  rw [h, abs_zero]

unseal Rat.add Rat.mul Rat.inv Rat.sub in
theorem c1_gate_accepts_aux :
    areAmountsConsistent [10, 10, 23/2] (1/10) = true ∧
    (analyzeImportedTransactions Rat.sqrt gateGroupTxs []).length = 1 := by
  exact ⟨by decide, by decide⟩

/-- C1 (counterexample): the amount-consistency gate accepts the group
with amounts [10.00, 10.00, 11.50] — the maximal relative deviation
from the mean 10.50 is 1/10.5 (about 9.52%), strictly below the 10%
tolerance — and on monthly dates the detector emits one candidate for
the group, contradicting the claim that the gate rejects the group
outright with no candidate. -/
theorem c1_gate_accepts_group :
    areAmountsConsistent [10, 10, 23/2] (1/10) = true ∧
    (analyzeImportedTransactions Rat.sqrt gateGroupTxs []).length = 1 :=
  c1_gate_accepts_aux

unseal Rat.add Rat.mul Rat.inv Rat.sub in
theorem c1_amended_aux :
    (analyzeImportedTransactions Rat.sqrt gateGroupTxs []).map
      (fun c => (c.subscription.price, c.confidence, c.reason)) =
      [(21/2, some 83, "3 transactions detected".data)] := by decide

/-- C1 (amended): for the 3-transaction group with amounts
[10.00, 10.00, 11.50] on monthly dates, the amount-consistency gate
passes and the detector emits exactly one candidate, with price 10.50,
confidence 83 and the transaction-count reason. -/
theorem c1_amended_candidate_emitted :
    (analyzeImportedTransactions Rat.sqrt gateGroupTxs []).map
      (fun c => (c.subscription.price, c.confidence, c.reason)) =
      [(21/2, some 83, "3 transactions detected".data)] :=
  c1_amended_aux

/-- C2 (counterexample): `normalizeDate` maps "01.01.50" to
"2050-01-01", not "1950-01-01" — the source maps a two-digit year to
19xx only when it is strictly greater than 50. -/
theorem c2_counterexample_year_boundary :
    normalizeDate "01.01.50".data = "2050-01-01".data ∧
    normalizeDate "01.01.50".data ≠ "1950-01-01".data := by
  exact ⟨by decide, by decide⟩

/-- C2 (amended): date normalization maps "19. Dezember 2025" to
"2025-12-19", "05/03/24" to "2024-03-05" and "01.01.49" to
"2049-01-01" as claimed, but the two-digit-year boundary lies between
50 and 51: "01.01.50" normalizes to "2050-01-01" and "01.01.51" to
"1951-01-01". -/
theorem c2_amended_date_normalization :
    normalizeDate "19. Dezember 2025".data = "2025-12-19".data ∧
    normalizeDate "05/03/24".data = "2024-03-05".data ∧
    normalizeDate "01.01.49".data = "2049-01-01".data ∧
    normalizeDate "01.01.50".data = "2050-01-01".data ∧
    normalizeDate "01.01.51".data = "1951-01-01".data := by
  refine ⟨by decide, by decide, by decide, by decide, by decide⟩

unseal Rat.add Rat.mul Rat.inv Rat.sub in
theorem c3_amount_aux :
    (extractTransactionsFromPDFText "01.02.2024 Acme Dienst 1.234,56 EUR".data).map
      (fun t => (t.amount, t.currency)) = [(30864/25, "EUR".data)] ∧
    (extractTransactionsFromPDFText "01.02.2024 Acme Dienst $1,234.56 USD".data).map
      (fun t => t.currency) = ["USD".data] ∧
    extractTransactionsFromPDFText "01.02.2024 Musikdienst EUR 22,50".data = [] := by
  exact ⟨by decide, by decide, by decide⟩

/-- C3: on a line with a recognized date, "1.234,56 EUR" is parsed to
amount 1234.56 (= 30864/25) with currency EUR, and a line tagged with
"$"/"USD" gets currency USD; but an "EUR 22,50" line yields NO
transaction: with the `g` flag, `match[1]` is the second full match
(not the capture group), so the code calls `parseFloat("EUR 22.50")`,
which is NaN, and skips the line — contradicting the code's own
"extract just the number part" intent and the claim's 22.50. -/
theorem c3_amount_extraction_behavior :
    (extractTransactionsFromPDFText "01.02.2024 Acme Dienst 1.234,56 EUR".data).map
      (fun t => (t.amount, t.currency)) = [(30864/25, "EUR".data)] ∧
    (extractTransactionsFromPDFText "01.02.2024 Acme Dienst $1,234.56 USD".data).map
      (fun t => t.currency) = ["USD".data] ∧
    extractTransactionsFromPDFText "01.02.2024 Musikdienst EUR 22,50".data = [] :=
  c3_amount_aux

theorem avgGapOf_none_of_short {dates : List Str} (h : dates.length < 2) :
    avgGapOf dates = none := by
  have hG : gapsOf (sortStrings dates) = [] := by
    apply List.length_eq_zero.mp
    rw [gapsOf_length, sortStrings_length]
    omega
  unfold avgGapOf
  rw [hG]
  simp [jsumL, jdiv]

theorem detectInterval_long {s : ℚ → ℚ} {dates : List Str} (h2 : ¬ dates.length < 2) :
    (detectInterval s dates).interval = intervalBandOf (avgGapOf dates) ∧
    (detectInterval s dates).intervalDays = jround (avgGapOf dates) := by
  unfold detectInterval
  rw [if_neg h2]
  exact ⟨rfl, rfl⟩

/-- C4: interval classification of the average consecutive-date gap: an
average gap of exactly 30 days classifies as monthly, 7 as weekly, 90
as quarterly and 365 as yearly; a 45-day average gap matches no band
and falls back to monthly, and the group is still classified (the
returned measured interval is 45 days) rather than rejected — the
detector has no interval-based rejection path. -/
theorem c4_interval_classification (s : ℚ → ℚ) (dates : List Str) :
    (avgGapOf dates = some 30 → (detectInterval s dates).interval = "monthly".data) ∧
    (avgGapOf dates = some 7 → (detectInterval s dates).interval = "weekly".data) ∧
    (avgGapOf dates = some 90 → (detectInterval s dates).interval = "quarterly".data) ∧
    (avgGapOf dates = some 365 → (detectInterval s dates).interval = "yearly".data) ∧
    (avgGapOf dates = some 45 →
      (detectInterval s dates).interval = "monthly".data ∧
      (detectInterval s dates).intervalDays = some 45) := by
  have hlong : ∀ v : ℚ, avgGapOf dates = some v → ¬ dates.length < 2 := by
    intro v hv hl
    rw [avgGapOf_none_of_short hl] at hv
    cases hv
  refine ⟨fun h => ?_, fun h => ?_, fun h => ?_, fun h => ?_, fun h => ?_⟩
  · rw [(detectInterval_long (hlong _ h)).1, h]
    decide
  · rw [(detectInterval_long (hlong _ h)).1, h]
    decide
  · rw [(detectInterval_long (hlong _ h)).1, h]
    decide
  · rw [(detectInterval_long (hlong _ h)).1, h]
    decide
  · refine ⟨?_, ?_⟩
    · rw [(detectInterval_long (hlong _ h)).1, h]
      decide
    · rw [(detectInterval_long (hlong _ h)).2, h]
      show some (((⌊(45 : ℚ) + 1/2⌋ : ℤ)) : ℚ) = some 45
      congr 1
      have : ⌊(45 : ℚ) + 1/2⌋ = 45 := by
        apply Int.floor_eq_iff.mpr
        constructor
        · push_cast
          norm_num
        · push_cast
          norm_num
      rw [this]
      norm_num

unseal Rat.add Rat.mul Rat.inv Rat.sub in
theorem c4_witness_aux :
    (avgGapOf ["2024-01-01".data, "2024-01-31".data] = some 30) ∧
    (avgGapOf ["2024-01-01".data, "2024-01-08".data] = some 7) ∧
    (avgGapOf ["2024-01-01".data, "2024-03-31".data] = some 90) ∧
    (avgGapOf ["2024-01-01".data, "2024-12-31".data] = some 365) ∧
    (avgGapOf ["2024-01-01".data, "2024-02-15".data] = some 45) := by
  exact ⟨by decide, by decide, by decide, by decide, by decide⟩

theorem c4_interval_classification_witness :
    ((detectInterval Rat.sqrt ["2024-01-01".data, "2024-01-31".data]).interval =
      "monthly".data) ∧
    ((detectInterval Rat.sqrt ["2024-01-01".data, "2024-01-08".data]).interval =
      "weekly".data) ∧
    ((detectInterval Rat.sqrt ["2024-01-01".data, "2024-03-31".data]).interval =
      "quarterly".data) ∧
    ((detectInterval Rat.sqrt ["2024-01-01".data, "2024-12-31".data]).interval =
      "yearly".data) ∧
    ((detectInterval Rat.sqrt ["2024-01-01".data, "2024-02-15".data]).interval =
      "monthly".data ∧
     (detectInterval Rat.sqrt ["2024-01-01".data, "2024-02-15".data]).intervalDays =
      some 45) :=
  ⟨(c4_interval_classification Rat.sqrt _).1 c4_witness_aux.1,
   (c4_interval_classification Rat.sqrt _).2.1 c4_witness_aux.2.1,
   (c4_interval_classification Rat.sqrt _).2.2.1 c4_witness_aux.2.2.1,
   (c4_interval_classification Rat.sqrt _).2.2.2.1 c4_witness_aux.2.2.2.1,
   (c4_interval_classification Rat.sqrt _).2.2.2.2 c4_witness_aux.2.2.2.2⟩

/-- C7: whenever the extracted text has strictly fewer than 100
characters per page, `isScannedPDF` is true and the parse-pdf flow
answers with an empty transaction list and `isScanned = true`; the
line-based extractor appears only in the other branch of the flow and
is never applied to such text. -/
theorem c7_scanned_short_circuit (text : Str) (pages : ℚ) (hp : 0 < pages)
    (h : (text.length : ℚ) / pages < 100) :
    isScannedPDF text pages = true ∧
    parsePdfFlow text pages =
      { transactions := [], isScanned := true, rawText := text, numPages := pages } := by
  have hsc : isScannedPDF text pages = true := by
    unfold isScannedPDF
    rw [jdiv, if_neg (ne_of_gt hp)]
    simp [jlt]
    exact h
  refine ⟨hsc, ?_⟩
  unfold parsePdfFlow
  rw [hsc]
  rfl

unseal Rat.add Rat.mul Rat.inv Rat.sub in
theorem c7_witness_aux :
    (0 : ℚ) < 1 ∧ ((scannedText.length : ℚ) / 1 < 100) := by
  exact ⟨by norm_num, by decide⟩

theorem c7_scanned_short_circuit_witness :
    isScannedPDF scannedText 1 = true ∧
    parsePdfFlow scannedText 1 =
      { transactions := [], isScanned := true, rawText := scannedText, numPages := 1 } :=
  c7_scanned_short_circuit scannedText 1 c7_witness_aux.1 c7_witness_aux.2

/-- C8: the detector is a pure function of its transaction list, its
existing-subscription list and the square-root function: two
invocations on the same inputs return the same candidate list — the
same candidates with the same field values, the same confidences and
the same order.  The embedding is clock-free because the main
`analyzeImportedTransactions` reads no ambient state (unlike the legacy
variant at the top of `importer.ts`, which stamps `nextPaymentDate`
from `new Date()`). -/
theorem c8_detection_deterministic (s : ℚ → ℚ) (txs : List ParsedTransaction)
    (subs : List Subscription) :
    analyzeImportedTransactions s txs subs = analyzeImportedTransactions s txs subs ∧
    (analyzeImportedTransactions s txs subs).map (fun c => c.confidence) =
      (analyzeImportedTransactions s txs subs).map (fun c => c.confidence) ∧
    (analyzeImportedTransactions s txs subs).map (fun c => c.subscription.nextPaymentDate) =
      (analyzeImportedTransactions s txs subs).map
        (fun c => c.subscription.nextPaymentDate) :=
  ⟨rfl, rfl, rfl⟩

/-- C5 (counterexample): the claimed boundary is unreachable — no
transaction group that passes the size and amount-consistency gates
ever has a computed confidence of exactly 39 or exactly 40.  For such
groups the confidence is either NaN (zero or undefined average gap) or
an integer of at least 42: the gate forces the amount-consistency term
above 80, the frequency term is at least 40, and a two-element group
has interval confidence exactly 100. -/
theorem c5_confidence_boundary_unreachable :
    ¬ ∃ txs : List ParsedTransaction,
        2 ≤ txs.length ∧
        areAmountsConsistent (groupAmounts (sortTxs txs)) (1/10) = true ∧
        (groupConfidence Rat.sqrt txs = some 39 ∨ groupConfidence Rat.sqrt txs = some 40) := by
  rintro ⟨txs, h2, hg, hor⟩
  rcases groupConfidence_cases Rat.sqrt ratSqrt_zero (fun q _ => Rat.sqrt_nonneg q) txs h2 hg
    with hnone | ⟨n, hn, h42, h100⟩
  · rcases hor with h | h
    · rw [hnone] at h
      cases h
    · rw [hnone] at h
      cases h
  · rcases hor with h | h
    · rw [hn] at h
      have h39 : ((n : ℤ) : ℚ) = 39 := Option.some.inj h
      have : n = 39 := by exact_mod_cast h39
      omega
    · rw [hn] at h
      have h40 : ((n : ℤ) : ℚ) = 40 := Option.some.inj h
      have : n = 40 := by exact_mod_cast h40
      omega

/-- C5 (amended): for a group passing the size and amount-consistency
gates, the detector emits a candidate exactly when the computed
confidence is not below 40 (`confidence < 40` discards the group, and a
NaN confidence is not below 40, so it is kept); the particular scores
39 and 40 named by the claim can never occur for such groups. -/
theorem c5_amended_threshold (s : ℚ → ℚ) (subs : List Subscription) (merchant : Str)
    (txs : List ParsedTransaction) (h2 : 2 ≤ txs.length)
    (hg : areAmountsConsistent (groupAmounts (sortTxs txs)) (1/10) = true) :
    (processGroup s subs merchant txs).isSome =
      !jlt (groupConfidence s txs) (some 40) := by
  unfold processGroup
  rw [if_neg (show ¬ txs.length < 2 by omega)]
  simp only [hg, Bool.not_true]
  cases hjl : jlt (groupConfidence s txs) (some 40) with
  | true => simp [hjl]
  | false => simp [hjl]

unseal Rat.add Rat.mul Rat.inv Rat.sub in
theorem c5_witness_aux :
    2 ≤ gateGroupTxs.length ∧
    areAmountsConsistent (groupAmounts (sortTxs gateGroupTxs)) (1/10) = true := by
  exact ⟨by decide, by decide⟩

theorem c5_amended_threshold_witness :
    (processGroup Rat.sqrt [] "acme gym".data gateGroupTxs).isSome =
      !jlt (groupConfidence Rat.sqrt gateGroupTxs) (some 40) :=
  c5_amended_threshold Rat.sqrt [] "acme gym".data gateGroupTxs
    c5_witness_aux.1 c5_witness_aux.2

/-- C6: whenever some existing subscription matches the candidate's
merchant key under the duplicate condition of the source — equal
lower-cased normalized names, or an equal non-empty providerId shared
with the merchant's catalog match — every candidate the detector emits
for that merchant carries the reason "Existing subscription - price
change detected" (which contains "price change detected") instead of
the transaction-count reason. -/
theorem c6_duplicate_reason (s : ℚ → ℚ) (subs : List Subscription) (merchant : Str)
    (txs : List ParsedTransaction) (c : SubscriptionCandidate)
    (hdup : ∃ sub ∈ subs, dupMatches merchant sub = true)
    (hc : processGroup s subs merchant txs = some c) :
    c.reason = "Existing subscription - price change detected".data ∧
    includesS "price change detected".data c.reason = true := by
  obtain ⟨-, -, -, -, hreason⟩ := processGroup_some_facts hc
  rcases hf : subs.find? (dupMatches merchant) with _ | sub
  · obtain ⟨sub, hmem, hcond⟩ := hdup
    have := List.find?_eq_none.mp hf sub hmem
    rw [hcond] at this
    cases this rfl
  · rw [hf] at hreason
    have hr2 : c.reason = "Existing subscription - price change detected".data := hreason
    refine ⟨hr2, ?_⟩
    rw [hr2]
    decide

unseal Rat.add Rat.mul Rat.inv Rat.sub in
theorem c6_witness_aux :
    (∃ sub ∈ [nfSub], dupMatches "Netflix".data sub = true) ∧
    processGroup Rat.sqrt [nfSub] "Netflix".data nfTxs = some cNf := by
  refine ⟨⟨nfSub, by decide, by decide⟩, by decide⟩

theorem c6_duplicate_reason_witness :
    cNf.reason = "Existing subscription - price change detected".data ∧
    includesS "price change detected".data cNf.reason = true :=
  c6_duplicate_reason Rat.sqrt [nfSub] "Netflix".data nfTxs cNf
    c6_witness_aux.1 c6_witness_aux.2

unseal Rat.add Rat.mul Rat.inv Rat.sub in
theorem c10_nan_aux :
    (analyzeImportedTransactions Rat.sqrt sameDayTxs []).map (fun c => c.confidence) =
      [none] := by decide

/-- C10 (counterexample): a group of two transactions of one merchant
on the same calendar day passes both gates (equal amounts), its gap
statistics divide zero by zero, and the resulting NaN confidence is not
below 40, so the detector emits the candidate — with confidence NaN,
which is not an integer in the range 0 to 100. -/
theorem c10_nan_confidence_emitted :
    (analyzeImportedTransactions Rat.sqrt sameDayTxs []).map (fun c => c.confidence) =
      [none] :=
  c10_nan_aux

/-- C10 (amended): every candidate the detector returns has a
confidence that is either an integer between 40 and 100 (in fact at
least 42), or NaN — the NaN case arising when the group's average-gap
computation divides by zero, e.g. when all transactions share one
date. -/
theorem c10_amended_confidence_range (s : ℚ → ℚ) (hs0 : s 0 = 0)
    (hsn : ∀ q, 0 ≤ q → 0 ≤ s q) (txs : List ParsedTransaction)
    (subs : List Subscription) (c : SubscriptionCandidate)
    (hc : c ∈ analyzeImportedTransactions s txs subs) :
    c.confidence = none ∨
      ∃ n : ℤ, c.confidence = some ((n : ℤ) : ℚ) ∧ 40 ≤ n ∧ n ≤ 100 := by
  obtain ⟨m, g, hmem, hpg⟩ := mem_analyze hc
  obtain ⟨h2, hg, hthr, hcc, -⟩ := processGroup_some_facts hpg
  rcases groupConfidence_cases s hs0 hsn g h2 hg with hnone | ⟨n, hn, h42, h100⟩
  · left
    rw [hcc, hnone]
  · right
    exact ⟨n, by rw [hcc, hn], by omega, h100⟩

unseal Rat.add Rat.mul Rat.inv Rat.sub in
theorem c10_witness_aux : cAcme ∈ analyzeImportedTransactions Rat.sqrt gateGroupTxs [] := by
  decide

theorem c10_amended_confidence_range_witness :
    cAcme.confidence = none ∨
      ∃ n : ℤ, cAcme.confidence = some ((n : ℤ) : ℚ) ∧ 40 ≤ n ∧ n ≤ 100 :=
  c10_amended_confidence_range Rat.sqrt ratSqrt_zero (fun q _ => Rat.sqrt_nonneg q)
    gateGroupTxs [] cAcme c10_witness_aux

/-! Non-negativity of the PDF extractor's amounts. -/

theorem jsFloatSign_eq_one {s : Str} (h : ∀ r, s ≠ '-' :: r) : jsFloatSign s = 1 := by
  unfold jsFloatSign
  split
  · rename_i r
    exact absurd rfl (h r)
  · rfl

theorem jsParseFloat_nonneg {str : Str} {q : ℚ} (hminus : '-' ∉ str)
    (h : jsParseFloat str = some q) : 0 ≤ q := by
  unfold jsParseFloat at h
  simp only [] at h
  split at h
  · cases h
  · have hq := Option.some.inj h
    have hs1 : ∀ r, str.dropWhile (isWsC ·) ≠ '-' :: r := by
      intro r hr
      apply hminus
      apply (List.dropWhile_sublist (isWsC ·)).mem
      rw [hr]
      exact List.mem_cons_self _ _
    rw [jsFloatSign_eq_one hs1, one_mul] at hq
    rw [← hq]
    positivity

theorem noMinus_pChar {p : Char → Bool} (hp : p '-' = false) : NoMinus (pChar p) := by
  intro s pr hpr c hc
  cases s with
  | nil => simp [pChar] at hpr
  | cons a rest =>
    rw [show pChar p (a :: rest) = if p a = true then [([a], rest)] else [] from rfl] at hpr
    by_cases hpa : p a = true
    · rw [if_pos hpa] at hpr
      rcases List.mem_singleton.mp hpr with rfl
      rcases List.mem_singleton.mp hc with rfl
      intro hcm
      rw [hcm] at hpa
      rw [hp] at hpa
      cases hpa
    · rw [if_neg hpa] at hpr
      cases hpr

theorem noMinus_pEmpty : NoMinus pEmpty := by
  intro s pr hpr c hc
  rcases List.mem_singleton.mp hpr with rfl
  cases hc

theorem noMinus_pSeq {a b : Str → Parses} (ha : NoMinus a) (hb : NoMinus b) :
    NoMinus (pSeq a b) := by
  intro s pr hpr c hc
  unfold pSeq at hpr
  obtain ⟨pra, hpra, hpr2⟩ := List.mem_flatMap.mp hpr
  obtain ⟨prb, hprb, rfl⟩ := List.mem_map.mp hpr2
  rcases List.mem_append.mp hc with h | h
  · exact ha s pra hpra c h
  · exact hb pra.2 prb hprb c h

theorem noMinus_pAlt {a b : Str → Parses} (ha : NoMinus a) (hb : NoMinus b) :
    NoMinus (pAlt a b) := by
  intro s pr hpr c hc
  rcases List.mem_append.mp hpr with h | h
  · exact ha s pr h c hc
  · exact hb s pr h c hc

theorem noMinus_pLitCI {lit : Str} (hlit : ∀ l ∈ lit, eqCI l '-' = false) :
    NoMinus (pLitCI lit) := by
  induction lit with
  | nil =>
    intro s pr hpr c hc
    rcases List.mem_singleton.mp hpr with rfl
    cases hc
  | cons l ls ih =>
    intro s pr hpr c hc
    cases s with
    | nil => cases hpr
    | cons ch rest =>
      rw [show pLitCI (l :: ls) (ch :: rest) =
          (if eqCI l ch = true then (pLitCI ls rest).map (fun pr => (ch :: pr.1, pr.2))
           else []) from rfl] at hpr
      by_cases hci : eqCI l ch = true
      · rw [if_pos hci] at hpr
        obtain ⟨pr2, hpr2, rfl⟩ := List.mem_map.mp hpr
        rcases List.mem_cons.mp hc with rfl | h2
        · intro hcm
          rw [hcm] at hci
          rw [hlit l (List.mem_cons_self l ls)] at hci
          cases hci
        · exact ih (fun x hx => hlit x (List.mem_cons_of_mem l hx)) rest pr2 hpr2 c h2
      · rw [if_neg hci] at hpr
        cases hpr

theorem noMinus_pCount {a : Str → Parses} (ha : NoMinus a) :
    ∀ n, NoMinus (pCount a n)
  | 0 => noMinus_pEmpty
  | n + 1 => noMinus_pSeq ha (noMinus_pCount ha n)

theorem noMinus_pRep {a : Str → Parses} (ha : NoMinus a) (lo hi : ℕ) :
    NoMinus (pRep a lo hi) := by
  intro s pr hpr c hc
  unfold pRep at hpr
  obtain ⟨k, _, hk⟩ := List.mem_flatMap.mp hpr
  exact noMinus_pCount ha _ s pr hk c hc

theorem noMinus_pStar {a : Str → Parses} (ha : NoMinus a) :
    ∀ fuel, NoMinus (pStar a fuel)
  | 0 => by
    intro s pr hpr c hc
    rcases List.mem_singleton.mp hpr with rfl
    cases hc
  | fuel + 1 => by
    intro s pr hpr c hc
    unfold pStar at hpr
    rcases List.mem_append.mp hpr with h | h
    · obtain ⟨pra, hpra, hpr2⟩ := List.mem_flatMap.mp h
      obtain ⟨prb, hprb, rfl⟩ := List.mem_map.mp hpr2
      rcases List.mem_append.mp hc with h2 | h2
      · exact ha s pra hpra c h2
      · exact noMinus_pStar ha fuel pra.2 prb hprb c h2
    · rcases List.mem_singleton.mp h with rfl
      cases hc

theorem noMinus_amountNum (fuel : ℕ) {t d : Char} (ht : t ≠ '-') (hd : d ≠ '-') :
    NoMinus (amountNum fuel t d) := by
  have hdig : NoMinus pDigit := noMinus_pChar (by decide)
  have hlt : NoMinus (pLit1 t) := by
    apply noMinus_pChar
    simp [decide_eq_false_iff_not]
    exact fun h => ht h.symm
  have hld : NoMinus (pLit1 d) := by
    apply noMinus_pChar
    simp [decide_eq_false_iff_not]
    exact fun h => hd h.symm
  exact noMinus_pSeq (noMinus_pRep hdig 1 3)
    (noMinus_pSeq (noMinus_pStar (noMinus_pSeq hlt (noMinus_pCount hdig 3)) fuel)
      (noMinus_pSeq hld (noMinus_pCount hdig 2)))

theorem noMinus_pWsStar (fuel : ℕ) : NoMinus (pStar pWs fuel) :=
  noMinus_pStar (noMinus_pChar (by decide)) fuel

theorem noMinus_pEur : NoMinus pEur :=
  noMinus_pAlt (noMinus_pLitCI (by decide)) (noMinus_pLitCI (by decide))

theorem noMinus_pUsd : NoMinus pUsd :=
  noMinus_pAlt (noMinus_pLitCI (by decide)) (noMinus_pLitCI (by decide))

theorem noMinusCtx_noBounds {M : Str → Parses} (h : NoMinus M) : NoMinusCtx (noBounds M) :=
  fun _ s pr hpr => h s pr hpr

theorem noMinusCtx_amountPat1 (fuel : ℕ) : NoMinusCtx (amountPat1 fuel) :=
  noMinusCtx_noBounds (noMinus_pSeq (noMinus_amountNum fuel (by decide) (by decide))
    (noMinus_pSeq (noMinus_pWsStar fuel) noMinus_pEur))

theorem noMinusCtx_amountPat2 (fuel : ℕ) : NoMinusCtx (amountPat2 fuel) :=
  noMinusCtx_noBounds (noMinus_pSeq noMinus_pEur
    (noMinus_pSeq (noMinus_pWsStar fuel) (noMinus_amountNum fuel (by decide) (by decide))))

theorem noMinusCtx_amountPat3 (fuel : ℕ) : NoMinusCtx (amountPat3 fuel) :=
  noMinusCtx_noBounds (noMinus_pSeq (noMinus_amountNum fuel (by decide) (by decide))
    (noMinus_pSeq (noMinus_pWsStar fuel) noMinus_pUsd))

theorem noMinusCtx_amountPat4 (fuel : ℕ) : NoMinusCtx (amountPat4 fuel) :=
  noMinusCtx_noBounds (noMinus_pSeq noMinus_pUsd
    (noMinus_pSeq (noMinus_pWsStar fuel) (noMinus_amountNum fuel (by decide) (by decide))))

theorem searchFirst_matched {M : CtxMatcher} (hM : NoMinusCtx M) :
    ∀ {s : Str} {prev : Option Char} {t : Str × Str × Str},
      searchFirst M prev s = some t → ∀ c ∈ t.2.1, c ≠ '-'
  | [], prev, t => by
    intro h c hc
    unfold searchFirst at h
    rcases hh : (M prev []).head? with _ | pr
    · rw [hh] at h
      cases h
    · rw [hh] at h
      rcases Option.some.inj h with rfl
      exact hM prev [] pr (List.mem_of_mem_head? (by simp [hh])) c hc
  | a :: rest, prev, t => by
    intro h c hc
    unfold searchFirst at h
    rcases hh : (M prev (a :: rest)).head? with _ | pr
    · rw [hh] at h
      rcases hrec : searchFirst M (some a) rest with _ | t2
      · rw [hrec] at h
        cases h
      · rw [hrec] at h
        rcases Option.some.inj h with rfl
        exact searchFirst_matched hM hrec c hc
    · rw [hh] at h
      rcases Option.some.inj h with rfl
      exact hM prev (a :: rest) pr (List.mem_of_mem_head? (by simp [hh])) c hc

theorem allMatches_noMinus {M : CtxMatcher} (hM : NoMinusCtx M) :
    ∀ (fuel : ℕ) (prev : Option Char) (str : Str) (m : Str),
      m ∈ allMatches M fuel prev str → ∀ c ∈ m, c ≠ '-'
  | 0, prev, str, m => by
    intro h
    cases h
  | fuel + 1, prev, str, m => by
    intro h c hc
    unfold allMatches at h
    rcases hs : searchFirst M prev str with _ | t
    · rw [hs] at h
      cases h
    · rw [hs] at h
      rcases List.mem_cons.mp h with rfl | h2
      · exact searchFirst_matched hM hs c hc
      · exact allMatches_noMinus hM fuel _ _ m h2 c hc

theorem matchSel_noMinus {mats : List Str} (h : ∀ m ∈ mats, ∀ c ∈ m, c ≠ '-') :
    ∀ c ∈ matchSel mats, c ≠ '-' := by
  intro c hc
  unfold matchSel at hc
  rcases hg : mats.get? 1 with _ | m
  · rw [hg] at hc
    cases mats with
    | nil => cases hc
    | cons m0 rest => exact h m0 (List.mem_cons_self m0 rest) c hc
  · rw [hg] at hc
    exact h m (List.get?_mem hg) c hc

theorem replaceFirstComma_noMinus {m : Str} (h : ∀ c ∈ m, c ≠ '-') :
    ∀ c ∈ replaceFirstComma m, c ≠ '-' := by
  induction m with
  | nil =>
    intro c hc
    cases hc
  | cons a r ih =>
    intro c hc
    unfold replaceFirstComma at hc
    by_cases ha : a = ','
    · rw [if_pos ha] at hc
      rcases List.mem_cons.mp hc with rfl | h2
      · decide
      · exact h c (List.mem_cons_of_mem _ h2)
    · rw [if_neg ha] at hc
      rcases List.mem_cons.mp hc with rfl | h2
      · exact h _ (List.mem_cons_self _ r)
      · exact ih (fun x hx => h x (List.mem_cons_of_mem _ hx)) c h2

theorem amountOfMatches_nonneg {M : CtxMatcher} (hM : NoMinusCtx M)
    {fuel : ℕ} {prev : Option Char} {str : Str} {q : ℚ}
    (h : amountOfMatches (allMatches M fuel prev str) = some q) : 0 ≤ q := by
  apply jsParseFloat_nonneg _ h
  intro hmem
  have h1 : ∀ c ∈ matchSel (allMatches M fuel prev str), c ≠ '-' :=
    matchSel_noMinus (fun m hm => allMatches_noMinus hM fuel prev str m hm)
  have h2 : ∀ c ∈ removeDots (matchSel (allMatches M fuel prev str)), c ≠ '-' := by
    intro c hc
    exact h1 c (List.mem_of_mem_filter hc)
  exact replaceFirstComma_noMinus h2 '-' hmem rfl

theorem lineAmountOf_nonneg {line : Str} {fuel : ℕ} {q : ℚ}
    (h : lineAmountOf line fuel = some q) : 0 ≤ q := by
  unfold lineAmountOf at h
  split at h
  · exact amountOfMatches_nonneg (noMinusCtx_amountPat1 _) h
  · split at h
    · exact amountOfMatches_nonneg (noMinusCtx_amountPat2 _) h
    · split at h
      · exact amountOfMatches_nonneg (noMinusCtx_amountPat3 _) h
      · split at h
        · exact amountOfMatches_nonneg (noMinusCtx_amountPat4 _) h
        · have := Option.some.inj h
          rw [← this]

theorem ite_none_else {α : Type} {c : Prop} [Decidable c] {x : Option α} {tx : α}
    (h : (if c then none else x) = some tx) : x = some tx := by
  split at h
  · cases h
  · exact h

theorem ite_some_none_inv {α : Type} {c : Prop} [Decidable c] {rec tx : α}
    (h : (if c then some rec else none) = some tx) : tx = rec := by
  split at h
  · exact (Option.some.inj h).symm
  · cases h

theorem extractLine_amount_nonneg {lines : List Str} {i : ℕ} {tx : ExtractedTransaction}
    (h : extractLine lines i = some tx) : 0 ≤ tx.amount := by
  unfold extractLine at h
  simp only [] at h
  have h2 := ite_none_else h
  rcases hfa : lineAmountOf (lines.getD i []) ((lines.getD i []).length + 1) with _ | q
  · rw [hfa] at h2
    cases h2
  · rw [hfa] at h2
    simp only [] at h2
    by_cases hq0 : q = 0
    · rw [if_pos hq0] at h2
      cases h2
    · rw [if_neg hq0] at h2
      have htx := ite_some_none_inv h2
      have hamt : tx.amount = q := by
        rw [htx]
      rw [hamt]
      exact lineAmountOf_nonneg hfa

unseal Rat.add Rat.mul Rat.inv Rat.sub in
theorem c9_csv_negative_aux :
    (parseCSVRow negRow emptyMapping).map (fun t => t.amount) = some (-999/100) ∧
    ¬ (0 ≤ (-999/100 : ℚ)) ∧ (-999/100 : ℚ) ≠ |(-999/100 : ℚ)| := by
  exact ⟨by decide, by decide, by decide⟩

/-- C9 (counterexample): `parseCSVRow` preserves the sign of the
charge — a CSV row whose amount column is "-9.99" parses to a
transaction whose amount is -9.99, which is negative and differs from
the absolute value of the charge, contradicting the claim that every
extracted transaction's amount is the non-negative absolute value. -/
theorem c9_csv_negative_amount :
    (parseCSVRow negRow emptyMapping).map (fun t => t.amount) = some (-999/100) ∧
    ¬ (0 ≤ (-999/100 : ℚ)) ∧ (-999/100 : ℚ) ≠ |(-999/100 : ℚ)| :=
  c9_csv_negative_aux

/-- C9 (amended): transactions produced by the PDF line extractor do
have non-negative amounts — its amount regexes match only unsigned
numbers, so `parseFloat` never sees a leading minus — but `parseCSVRow`
returns the signed parsed charge; absolute values are taken only later,
inside the detector. -/
theorem c9_amended_pdf_amounts_nonneg (text : Str) (tx : ExtractedTransaction)
    (h : tx ∈ extractTransactionsFromPDFText text) : 0 ≤ tx.amount := by
  unfold extractTransactionsFromPDFText at h
  simp only [] at h
  obtain ⟨i, hi, hline⟩ := List.mem_filterMap.mp h
  exact extractLine_amount_nonneg hline

unseal Rat.add Rat.mul Rat.inv Rat.sub in
theorem c9_witness_aux : pdfTxDemo ∈ extractTransactionsFromPDFText germanLine := by
  decide

theorem c9_amended_pdf_amounts_nonneg_witness : 0 ≤ pdfTxDemo.amount :=
  c9_amended_pdf_amounts_nonneg germanLine pdfTxDemo c9_witness_aux
